import Mathlib

/-!
# Verification of the Job-Autofill form pipeline

Shallow embedding of the pure core of the Job-Autofill repository:

* `form_field_answer.py` — `PERSONAL_PATTERNS`, `is_personal`,
  `ci_match_label`, `validate_and_clip`, and the type-coercion block of
  `normalize_fields`;
* `Chooese_from_user.py` — `parse_months_free_text`,
  `months_range_from_label`, `choose_from_user`;
* `complete_skipped_fields.py` — `dedup_skipped_by_id`,
  `unwrap_previous_completed`, and the interactive main loop with its
  answer-map merge;
* `a6_complete_skipped_fields.py` — its variant type-coercion block;
* `a4_enhanced_form_extractor.py` — the `_label_js` label-inference
  cascade;
* `fill_form_resume.py` — `combo_first_visible_option`,
  `open_combo_type_slow_pick_first` (as an action trace).

Python dictionaries are modelled as insertion-ordered association lists
(`dlookup` / `dinsert` / `dupdate`), Python floats as rationals (all the
numeric literals involved — 0.001, 5.999, 12.001, … — are exactly
representable comparisons at the scales exercised here), and the regular
expressions of the source as an executable mini regex interpreter covering
exactly the constructs those patterns use (literals, `\b`, `\s*`/`\s+`,
`(a|b)`, `(x)?`).
-/

namespace JobAutofill

/-! ## Python dict model: insertion-ordered association lists -/

/-- First-match lookup, the semantics of `d[k]` / `d.get(k)` on a Python
dict rendered as its insertion-ordered item list. -/
def dlookup {V : Type} : List (String × V) → String → Option V
  | [], _ => none
  | p :: t, k => if p.1 = k then some p.2 else dlookup t k

/-- `d[k] = v` on a Python dict: overwrite in place if the key is present,
else append at the end (insertion order preserved). -/
def dinsert {V : Type} (d : List (String × V)) (k : String) (v : V) :
    List (String × V) :=
  if (dlookup d k).isSome then
    d.map (fun p => if p.1 = k then (k, v) else p)
  else d ++ [(k, v)]

/-- `d.update(n)` on Python dicts: insert every item of `n` in order. -/
def dupdate {V : Type} (d n : List (String × V)) : List (String × V) :=
  n.foldl (fun acc p => dinsert acc p.1 p.2) d


/-! ## A mini regex interpreter

`PERSONAL_PATTERNS` in `form_field_answer.py` uses only literals, `\b`,
`\s*`, alternation `(a|b)` and option `(x)?`.  The interpreter below
implements exactly these constructs; `reMatchEnds r cs i` returns the list
of positions at which `r` can finish matching when started at position `i`
of `cs`, and `reSearch` is Python's `re.search` (a match starting at any
position). -/

inductive RE : Type
  | eps
  | lit (s : List Char)
  | ws0
  | ws1
  | wb
  | opt (r : RE)
  | alt (r₁ r₂ : RE)
  | seq (r₁ r₂ : RE)

/-- Python `\s` (ASCII part, which is all these inputs use). -/
def isPySpace (c : Char) : Bool :=
  c = ' ' || c = '\t' || c = '\n' || c = '\x0d' || c = '\x0b' || c = '\x0c'

/-- Python `\w`: letters, digits, underscore (ASCII part). -/
def isWordChar (c : Char) : Bool :=
  c.isAlphanum || c = '_'

/-- `str.lower` on one character (ASCII part, which is all these inputs
use; kernel-reducible, unlike `String.toLower`). -/
def pyLowerChar (c : Char) : Char :=
  if 'A' ≤ c ∧ c ≤ 'Z' then Char.ofNat (c.toNat + 32) else c

/-- Python `str.lower` / `str.casefold` (ASCII part). -/
def pyLower (s : String) : String :=
  String.mk (s.toList.map pyLowerChar)

/-- Python `str.strip()`: drop leading and trailing whitespace. -/
def pyStrip (s : String) : String :=
  String.mk
    (((s.toList.dropWhile isPySpace).reverse.dropWhile isPySpace).reverse)

/-- Positions `i, i+1, …, i+k` where `k` is the length of the whitespace
run of `cs` starting at `i` (the possible ends of a `\s*` match). -/
def wsRunAux : List Char → Nat → List Nat
  | [], i => [i]
  | c :: t, i => if isPySpace c then i :: wsRunAux t (i + 1) else [i]

def wsRun (cs : List Char) (i : Nat) : List Nat :=
  wsRunAux (cs.drop i) i

def isWordAt (cs : List Char) (i : Nat) : Bool :=
  (cs[i]?).elim false isWordChar

/-- `\b`: a word character on exactly one side of position `i`. -/
def wordBoundary (cs : List Char) (i : Nat) : Bool :=
  xor (if i = 0 then false else isWordAt cs (i - 1)) (isWordAt cs i)

def reMatchEnds : RE → List Char → Nat → List Nat
  | .eps, _, i => [i]
  | .lit s, cs, i => if s.isPrefixOf (cs.drop i) then [i + s.length] else []
  | .ws0, cs, i => wsRun cs i
  | .ws1, cs, i => (wsRun cs i).tail
  | .wb, cs, i => if wordBoundary cs i then [i] else []
  | .opt r, cs, i => reMatchEnds r cs i ++ [i]
  | .alt r₁ r₂, cs, i => reMatchEnds r₁ cs i ++ reMatchEnds r₂ cs i
  | .seq r₁ r₂, cs, i =>
      (reMatchEnds r₁ cs i).flatMap (fun j => reMatchEnds r₂ cs j)

/-- `re.search(r, s)`: does `r` match starting at some position of `s`? -/
def reSearch (r : RE) (s : String) : Bool :=
  let cs := s.toList
  (List.range (cs.length + 1)).any (fun i => !(reMatchEnds r cs i).isEmpty)

def rword (s : String) : RE := .lit s.toList

def reSeq (rs : List RE) : RE := rs.foldr .seq .eps

/-- `\b<s>\b`. -/
def bword (s : String) : RE := reSeq [.wb, rword s, .wb]

/-! ## `form_field_answer.py`: personal/preference gate -/

/-- The `PERSONAL_PATTERNS` list of `form_field_answer.py`, in source
order. -/
def PERSONAL_PATTERNS : List RE :=
  [ bword "ctc", bword "salary", bword "compensation", bword "package",
    bword "expected", bword "current",
    bword "notice",
    reSeq [.wb, rword "last", .ws0, rword "working", .ws0, rword "day", .wb],
    bword "lwd", bword "joining", bword "buyout",
    reSeq [.wb, rword "work", .ws0, rword "from", .ws0, rword "home", .wb],
    bword "wfh", bword "wfo", bword "hybrid",
    reSeq [.wb, rword "shift", .opt (rword "s"), .wb],
    reSeq [.wb, rword "preferred", .ws0, rword "location", .wb],
    reSeq [.wb, rword "relocat", .alt (rword "e") (rword "ion"), .wb],
    bword "travel",
    bword "gender", bword "age", bword "dob",
    reSeq [.wb, rword "date", .ws0, rword "of", .ws0, rword "birth", .wb],
    bword "marital",
    bword "bond",
    reSeq [.wb, rword "service", .ws0, rword "agreement", .wb],
    reSeq [.wb, rword "non", .opt (rword "-"), rword "compete", .wb],
    bword "nda",
    bword "visa", bword "immigration" ]

/-- `is_personal` of `form_field_answer.py`: lowercase the question, then
search every personal pattern. -/
def is_personal (question : String) : Bool :=
  PERSONAL_PATTERNS.any (fun p => reSearch p (pyLower question))

/-! ## Data model (`form_field_answer.py` dataclasses and JSON values) -/

/-- A JSON-ish Python value as it appears in the model output / answer
maps.  Python floats are modelled by rationals. -/
inductive PyVal : Type
  | vstr (s : String)
  | vint (n : Int)
  | vfloat (q : ℚ)
  | vbool (b : Bool)
  | vlist (xs : List PyVal)
  | vnone
  deriving Repr

/-- `NormalizedOption` dataclass. -/
structure NormalizedOption where
  label : String
  deriving DecidableEq, Repr

/-- `NormalizedField` dataclass. -/
structure NormalizedField where
  id : String
  question : String
  type : String
  options : List NormalizedOption
  allows_multiple : Bool
  deriving DecidableEq, Repr

/-- One entry of a skipped-fields list: `{id, question, reason}`. -/
structure SkipItem where
  id : String
  question : String
  reason : String
  deriving DecidableEq, Repr

/-- The model output consumed by `validate_and_clip`: an answers dict and
a skipped list. -/
structure ModelOut where
  answers : List (String × PyVal)
  skipped : List SkipItem

/-- `ci_match_label` (`utils.py` / `form_field_answer.py`):
case-insensitive exact match returning the canonical label. -/
def ci_match_label (val : String) (labels : List String) : Option String :=
  let v := pyLower (pyStrip val)
  labels.find? (fun lab => v == pyLower lab)


/-! ## `validate_and_clip` (`form_field_answer.py`) -/

/-- `isinstance(v, str)`. -/
def PyVal.isStr : PyVal → Bool
  | .vstr _ => true
  | _ => false

/-- `isinstance(val, (str, int, float, bool)) or
(isinstance(val, list) and all(isinstance(x, str) for x in val))` —
the free-text branch's accepted shapes. -/
def PyVal.isSimple : PyVal → Bool
  | .vstr _ => true
  | .vint _ => true
  | .vfloat _ => true
  | .vbool _ => true
  | .vlist xs => xs.all PyVal.isStr
  | .vnone => false

/-- The multi-select `chosen` list of `validate_and_clip`: collect the
case-insensitive label matches of the string entries. -/
def vacChosen (val : PyVal) (labels : List String) : List String :=
  match val with
  | .vlist xs =>
      xs.filterMap (fun v =>
        match v with
        | .vstr s => ci_match_label s labels
        | _ => none)
  | .vstr s =>
      match ci_match_label s labels with
      | some lab => [lab]
      | none => []
  | _ => []

/-- One iteration of the `for f in fields` loop of `validate_and_clip`,
threading the `(answers, skipped)` accumulator. -/
def vacStep (out_answers : List (String × PyVal))
    (acc : List (String × PyVal) × List SkipItem) (f : NormalizedField) :
    List (String × PyVal) × List SkipItem :=
  if is_personal f.question then
    (acc.1, acc.2 ++ [⟨f.id, f.question, "personal/preference"⟩])
  else
    match dlookup out_answers f.id with
    | none =>
        if acc.2.any (fun s => s.id == f.id) then (acc.1, acc.2)
        else (acc.1,
          acc.2 ++ [⟨f.id, f.question, "not in resume / ambiguous"⟩])
    | some val =>
        if f.options ≠ [] then
          if f.allows_multiple then
            if vacChosen val (f.options.map (fun o => o.label)) ≠ [] then
              (dinsert acc.1 f.id
                (.vlist ((vacChosen val
                  (f.options.map (fun o => o.label))).map .vstr)), acc.2)
            else
              (acc.1,
                acc.2 ++ [⟨f.id, f.question, "no valid option chosen"⟩])
          else
            match val with
            | .vstr s =>
                match ci_match_label s (f.options.map (fun o => o.label)) with
                | some lab => (dinsert acc.1 f.id (.vstr lab), acc.2)
                | none =>
                    (acc.1,
                      acc.2 ++ [⟨f.id, f.question, "no valid option chosen"⟩])
            | _ =>
                (acc.1,
                  acc.2 ++ [⟨f.id, f.question, "invalid value type"⟩])
        else
          if val.isSimple then (dinsert acc.1 f.id val, acc.2)
          else
            (acc.1, acc.2 ++ [⟨f.id, f.question, "invalid value type"⟩])

/-- The `for f in fields` loop. -/
def vacLoop (out_answers : List (String × PyVal)) :
    List NormalizedField → List (String × PyVal) × List SkipItem →
    List (String × PyVal) × List SkipItem
  | [], acc => acc
  | f :: fs, acc => vacLoop out_answers fs (vacStep out_answers acc f)

/-- `validate_and_clip(fields, model_out)`: carry over the well-formed
model skips, then run the per-field loop from an empty answers dict. -/
def validate_and_clip (fields : List NormalizedField) (mo : ModelOut) :
    List (String × PyVal) × List SkipItem :=
  vacLoop mo.answers fields
    ([], mo.skipped.filter (fun s => s.id ≠ "" && s.reason ≠ ""))

/-- The option labels of a field. -/
def optLabels (f : NormalizedField) : List String :=
  f.options.map (fun o => o.label)

/-- A clipped answer drawn from a closed option set: either one canonical
label, or a non-empty list of canonical labels. -/
def valueFromOptions (v : PyVal) (labels : List String) : Prop :=
  (∃ lab, lab ∈ labels ∧ v = .vstr lab) ∨
  (∃ labs, labs ≠ [] ∧ (∀ lab ∈ labs, lab ∈ labels) ∧
    v = .vlist (labs.map .vstr))

/-- `\b<w>\b` found in the lowercased `q` — "q contains the standalone
word w". -/
def containsWordCI (q w : String) : Bool := reSearch (bword w) (pyLower q)

/-! ## `Chooese_from_user.py`: free-text → option mapping

`input()` is abstracted into the `ans` argument, and the external
`difflib.get_close_matches` call into a `fuzzy` function argument (the
claims about this code are conditioned on the fuzzy stage failing, so no
model of difflib's ratio is needed).

Python floats are modelled by `PyFloat`, exact fractions `num/den` with a
positive denominator and no normalisation: every float value arising here
(integers, tenths, 0.001 offsets) is exactly representable, and all the
comparisons the source performs coincide with the exact-rational ones.
The representation is kernel-computable (plain `Int`/`Nat` arithmetic, no
gcd), so concrete runs of the matcher can be checked by `decide`. -/

structure PyFloat where
  num : Int
  den : Nat
  dpos : 0 < den

instance : DecidableEq PyFloat := fun a b =>
  if h : a.num = b.num ∧ a.den = b.den then
    isTrue (by
      cases a
      cases b
      rcases h with ⟨h1, h2⟩
      cases h1
      cases h2
      rfl)
  else
    isFalse (by
      intro he
      cases he
      exact h ⟨rfl, rfl⟩)

/-- An integer float value `n.0`. -/
def PyFloat.ofNat (n : Nat) : PyFloat := ⟨n, 1, one_pos⟩

/-- The fraction `n / 10^k` (a parsed decimal literal). -/
def PyFloat.tenPow (n k : Nat) : PyFloat :=
  ⟨n, 10 ^ k, pow_pos (by norm_num) k⟩

/-- The float literal `0.001`. -/
def pf0001 : PyFloat := ⟨1, 1000, by norm_num⟩

def PyFloat.add (a b : PyFloat) : PyFloat :=
  ⟨a.num * b.den + b.num * a.den, a.den * b.den, Nat.mul_pos a.dpos b.dpos⟩

def PyFloat.sub (a b : PyFloat) : PyFloat :=
  ⟨a.num * b.den - b.num * a.den, a.den * b.den, Nat.mul_pos a.dpos b.dpos⟩

def PyFloat.mul (a b : PyFloat) : PyFloat :=
  ⟨a.num * b.num, a.den * b.den, Nat.mul_pos a.dpos b.dpos⟩

/-- Value comparison by cross-multiplication (the denominators are
positive, so this is the ordinary rational order). -/
def PyFloat.le (a b : PyFloat) : Prop := a.num * b.den ≤ b.num * a.den

def PyFloat.lt (a b : PyFloat) : Prop := a.num * b.den < b.num * a.den

instance : LE PyFloat := ⟨PyFloat.le⟩

instance : LT PyFloat := ⟨PyFloat.lt⟩

instance (a b : PyFloat) : Decidable (a ≤ b) :=
  inferInstanceAs (Decidable (a.num * b.den ≤ b.num * a.den))

instance (a b : PyFloat) : Decidable (a < b) :=
  inferInstanceAs (Decidable (a.num * b.den < b.num * a.den))

/-- Python `min(a, b)` (first argument on ties). -/
def PyFloat.fmin (a b : PyFloat) : PyFloat := if b < a then b else a

/-- Python `max(a, b)` (first argument on ties). -/
def PyFloat.fmax (a b : PyFloat) : PyFloat := if a < b then b else a

/-- Python `abs`. -/
def PyFloat.fabs (a : PyFloat) : PyFloat := ⟨|a.num|, a.den, a.dpos⟩

def pyYES : List String := ["yes", "y", "true", "ok", "okay", "sure"]

def pyNO : List String := ["no", "n", "false"]

/-- Python `needle in hay` on strings (char-list level). -/
def subIn (needle : List Char) : List Char → Bool
  | [] => needle.isEmpty
  | c :: t => needle.isPrefixOf (c :: t) || subIn needle t

def strIn (needle hay : String) : Bool := subIn needle.toList hay.toList

def digitsToNat (ds : List Char) : Nat :=
  ds.foldl (fun acc c => 10 * acc + (c.toNat - '0'.toNat)) 0

/-- Match `\d+(?:\.\d+)?` anchored at the head of `cs`; returns the number
and the rest. -/
def numAt (cs : List Char) : Option (PyFloat × List Char) :=
  let intPart := cs.takeWhile Char.isDigit
  if intPart.isEmpty then none
  else
    let rest := cs.drop intPart.length
    match rest with
    | '.' :: r2 =>
        let frac := r2.takeWhile Char.isDigit
        if frac.isEmpty then some (PyFloat.ofNat (digitsToNat intPart), rest)
        else some ((PyFloat.ofNat (digitsToNat intPart)).add
          (PyFloat.tenPow (digitsToNat frac) frac.length),
          r2.drop frac.length)
    | _ => some (PyFloat.ofNat (digitsToNat intPart), rest)

/-- First match of `re.findall(r"(\d+(?:\.\d+)?)", ·)`. -/
def firstNumber : List Char → Option PyFloat
  | [] => none
  | c :: t => if c.isDigit then (numAt (c :: t)).map (fun p => p.1)
              else firstNumber t

/-- `parse_months_free_text`: free text → months. -/
def parse_months_free_text (s : String) : Option PyFloat :=
  let t := pyStrip (pyLower s)
  if t = "" then none
  else if strIn "fresher" t || strIn "no exp" t || strIn "0 exp" t ||
      strIn "zero" t then some (PyFloat.ofNat 0)
  else
    match firstNumber t.toList with
    | none => none
    | some n =>
        if strIn "year" t || strIn "yr" t || strIn "yrs" t then
          some (n.mul (PyFloat.ofNat 12))
        else some n

def eatLit (lit cs : List Char) : Option (List Char) :=
  if lit.isPrefixOf cs then some (cs.drop lit.length) else none

/-- `\s*` (greedy; the token that follows never starts with whitespace in
these patterns, so greediness without backtracking is exact). -/
def eatWs0 (cs : List Char) : List Char := cs.dropWhile isPySpace

/-- `\s+`. -/
def eatWs1 : List Char → Option (List Char)
  | [] => none
  | c :: t => if isPySpace c then some (t.dropWhile isPySpace) else none

/-- `(month|year)`, alternation in pattern order; `true` means year. -/
def eatUnit (cs : List Char) : Option (Bool × List Char) :=
  match eatLit "month".toList cs with
  | some r => some (false, r)
  | none =>
      match eatLit "year".toList cs with
      | some r => some (true, r)
      | none => none

def unitScale (isYear : Bool) : PyFloat :=
  if isYear then PyFloat.ofNat 12 else PyFloat.ofNat 1

/-- `.{0,10}` with backtracking, greedy (longest gap first); `.` does not
match a newline. -/
def gapTries (cs : List Char) : List (List Char) :=
  (List.range 11).reverse.filterMap (fun k =>
    if k ≤ cs.length && !(cs.take k).contains '\n' then some (cs.drop k)
    else none)

/-- Leftmost `re.search`: try the matcher at every start position. -/
def searchPos {α : Type} (f : List Char → Option α) : List Char → Option α
  | [] => f []
  | c :: t =>
      match f (c :: t) with
      | some a => some a
      | none => searchPos f t

/-- `less\s+than\s+(\d+(?:\.\d+)?)\s*(month|year)` anchored at head;
returns the bound scaled to months. -/
def matchLessThan (cs : List Char) : Option PyFloat := do
  let r1 ← eatLit "less".toList cs
  let r2 ← eatWs1 r1
  let r3 ← eatLit "than".toList r2
  let r4 ← eatWs1 r3
  let (n, r5) ← numAt r4
  let r6 := eatWs0 r5
  let (isY, _) ← eatUnit r6
  pure (n.mul (unitScale isY))

/-- `(\d+(?:\.\d+)?)\s*(month|year).{0,10}to.{0,10}(\d+(?:\.\d+)?)\s*(month|year)`
anchored at head; returns both bounds scaled to months. -/
def matchRange (cs : List Char) : Option (PyFloat × PyFloat) := do
  let (a, r1) ← numAt cs
  let r2 := eatWs0 r1
  let (ua, r3) ← eatUnit r2
  (gapTries r3).findSome? (fun g => do
    let r4 ← eatLit "to".toList g
    (gapTries r4).findSome? (fun g2 => do
      let (b, r5) ← numAt g2
      let r6 := eatWs0 r5
      let (ub, _) ← eatUnit r6
      pure (a.mul (unitScale ua), b.mul (unitScale ub))))

/-- `(over|more than|≥|>=)\s*(\d+(?:\.\d+)?)\s*(month|year)` anchored at
head; returns the bound scaled to months. -/
def matchOver (cs : List Char) : Option PyFloat := do
  let r1 ← (eatLit "over".toList cs <|> eatLit "more than".toList cs <|>
    eatLit "≥".toList cs <|> eatLit ">=".toList cs)
  let r2 := eatWs0 r1
  let (n, r3) ← numAt r2
  let r4 := eatWs0 r3
  let (isY, _) ← eatUnit r4
  pure (n.mul (unitScale isY))

/-- `months_range_from_label`: a month range `(lo, hi)`; `hi = none`
models `math.inf`. -/
def months_range_from_label (label : String) :
    Option (PyFloat × Option PyFloat) :=
  let t := pyStrip (pyLower label)
  let cs := t.toList
  match searchPos matchLessThan cs with
  | some hi => some (PyFloat.ofNat 0, some (hi.sub pf0001))
  | none =>
      match searchPos matchRange cs with
      | some (lo, hi) =>
          if hi < lo then some (hi, some lo) else some (lo, some hi)
      | none =>
          match searchPos matchOver cs with
          | some n => some (n.add pf0001, none)
          | none =>
              if strIn "fresher" t then
                some (PyFloat.ofNat 0, some (PyFloat.ofNat 0))
              else none

/-- Python `str.isdigit` (ASCII part). -/
def pyIsDigit (s : String) : Bool :=
  s.length > 0 && s.toList.all Char.isDigit

/-- Step (index): a typed number `1..N` picks that option's value. -/
def stepIndex (ans : String) (options : List (String × String)) :
    Option String :=
  if pyIsDigit ans then
    let idx := digitsToNat ans.toList
    if 1 ≤ idx ∧ idx ≤ options.length then (options[idx - 1]?).map Prod.fst
    else none
  else none

/-- Step (a): yes/no words map to an option labelled yes/no. -/
def stepYesNo (ans : String) (options : List (String × String)) :
    Option String :=
  let al := pyLower ans
  if al ∈ pyYES ∨ al ∈ pyNO then
    let yn := if al ∈ pyYES then "yes" else "no"
    (options.find? (fun vl => pyLower vl.2 == yn)).map Prod.fst
  else none

/-- `lo <= months <= hi` with `hi = none` as infinity. -/
def rangeContainsB (m : PyFloat) (r : PyFloat × Option PyFloat) : Bool :=
  match r.2 with
  | some hi => decide (r.1 ≤ m ∧ m ≤ hi)
  | none => decide (r.1 ≤ m)

/-- The code's distance score for a non-containing range:
`min(abs(m-lo), abs(m-hi))` when bounded, else `max(0, m-lo)`. -/
def rangeDist (m : PyFloat) (r : PyFloat × Option PyFloat) : PyFloat :=
  match r.2 with
  | some hi => PyFloat.fmin (m.sub r.1).fabs (m.sub hi).fabs
  | none => PyFloat.fmax (PyFloat.ofNat 0) (m.sub r.1)

/-- `scored.sort(key=d); scored[0][1]` — Python's sort is stable, so this
is the value of the earliest pair attaining the minimal score. -/
def selectMinAux (best : PyFloat × String) :
    List (PyFloat × String) → PyFloat × String
  | [] => best
  | q :: rest =>
      if q.1 < best.1 then selectMinAux q rest else selectMinAux best rest

def selectMinScored : List (PyFloat × String) → Option String
  | [] => none
  | p :: rest => some (selectMinAux p rest).2

/-- The `for v,l in options` loop of step (b): return the first option
whose range contains the number, else score the rest. -/
def numericLoop (m : PyFloat) :
    List (String × String) → List (PyFloat × String) → Option String
  | [], scored => selectMinScored scored
  | (v, l) :: rest, scored =>
      match months_range_from_label l with
      | some r =>
          if rangeContainsB m r then some v
          else numericLoop m rest (scored ++ [(rangeDist m r, v)])
      | none => numericLoop m rest scored

/-- Step (b): numeric months/years → bucket. -/
def stepNumeric (ans : String) (options : List (String × String)) :
    Option String :=
  match parse_months_free_text ans with
  | some m => numericLoop m options []
  | none => none

/-- Step (c): fuzzy label match (difflib abstracted into `fuzzy`). -/
def stepFuzzy (fuzzy : String → List String → Option String) (ans : String)
    (options : List (String × String)) : Option String :=
  match fuzzy ans (options.map Prod.snd) with
  | some best => (options.find? (fun vl => vl.2 == best)).map Prod.fst
  | none => none

/-- Step (d): unique substring containment. -/
def stepSubstring (ans : String) (options : List (String × String)) :
    Option String :=
  let hits :=
    (options.filter (fun vl => strIn (pyLower ans) (pyLower vl.2))).map Prod.fst
  if hits.length = 1 then hits[0]? else none

/-- `choose_from_user`: the or-else chain of the source's early returns. -/
def choose_from_user (fuzzy : String → List String → Option String)
    (ans : String) (options : List (String × String)) : Option String :=
  (stepIndex ans options).orElse (fun _ =>
  (stepYesNo ans options).orElse (fun _ =>
  (stepNumeric ans options).orElse (fun _ =>
  (stepFuzzy fuzzy ans options).orElse (fun _ =>
  stepSubstring ans options))))

/-! ## `complete_skipped_fields.py`: dedup, merge and the ask-once loop -/

/-- First pass of `dedup_skipped_by_id`: build `chosen`, preferring a
`personal/preference` record over any other reason on collision. -/
def dedup_skipped_pass1Aux : List SkipItem → List (String × SkipItem) →
    List (String × SkipItem)
  | [], ch => ch
  | item :: rest, ch =>
      if item.id = "" then dedup_skipped_pass1Aux rest ch
      else
        match dlookup ch item.id with
        | none => dedup_skipped_pass1Aux rest (dinsert ch item.id item)
        | some curr =>
            if item.reason = "personal/preference" ∧
                curr.reason ≠ "personal/preference" then
              dedup_skipped_pass1Aux rest (dinsert ch item.id item)
            else dedup_skipped_pass1Aux rest ch

def dedup_skipped_pass1 (l : List SkipItem) : List (String × SkipItem) :=
  dedup_skipped_pass1Aux l []

/-- Second pass: emit `chosen[fid]` once per id, in order of first
appearance. -/
def dedup_skipped_pass2 (chosen : List (String × SkipItem)) :
    List SkipItem → List String → List SkipItem
  | [], _ => []
  | item :: rest, seen =>
      if item.id = "" ∨ item.id ∈ seen then
        dedup_skipped_pass2 chosen rest seen
      else
        match dlookup chosen item.id with
        | some c => c :: dedup_skipped_pass2 chosen rest (seen ++ [item.id])
        | none => dedup_skipped_pass2 chosen rest seen

def dedup_skipped_by_id (l : List SkipItem) : List SkipItem :=
  dedup_skipped_pass2 (dedup_skipped_pass1 l) l []

/-- One entry of the wrapped `{id: {question, answer}}` store. -/
structure WrappedAnswer where
  question : String
  answer : PyVal

/-- `unwrap_previous_completed`: to a flat `{id: answer}` dict. -/
def unwrap_previous_completed (prev : List (String × WrappedAnswer)) :
    List (String × PyVal) :=
  prev.foldl (fun out p => dinsert out p.1 p.2.answer) []

/-- `known_answers = dict(existing_filled); known_answers.update(previous_values)`. -/
def known_answers (existing : List (String × PyVal))
    (prev : List (String × WrappedAnswer)) : List (String × PyVal) :=
  dupdate existing (unwrap_previous_completed prev)

/-- `field_map = {f.id: f for f in fields}`. -/
def build_field_map (fields : List NormalizedField) :
    List (String × NormalizedField) :=
  fields.foldl (fun m f => dinsert m f.id f) []

/-- The mutable state of the interactive loop. -/
structure CsfState where
  new_values : List (String × PyVal)
  still_skipped : List SkipItem
  asked : List String

/-- The `for s in skipped_list` loop of `complete_skipped_fields.main`;
the interactive `ask_for_field` is abstracted into `ask` (a deterministic
function of the field — `None` means the user pressed Enter). -/
def csfLoop (fmap : List (String × NormalizedField))
    (known : List (String × PyVal)) (ask : NormalizedField → Option PyVal) :
    List SkipItem → CsfState → CsfState
  | [], st => st
  | s :: rest, st =>
      if s.id = "" then csfLoop fmap known ask rest st
      else if (dlookup known s.id).isSome then csfLoop fmap known ask rest st
      else if s.id ∈ st.asked then csfLoop fmap known ask rest st
      else
        let st1 : CsfState := { st with asked := st.asked ++ [s.id] }
        match dlookup fmap s.id with
        | none =>
            csfLoop fmap known ask rest
              { st1 with still_skipped := st1.still_skipped ++
                  [⟨s.id, s.question, "field metadata not found"⟩] }
        | some f =>
            match ask f with
            | some val =>
                csfLoop fmap known ask rest
                  { st1 with new_values := dinsert st1.new_values s.id val }
            | none =>
                csfLoop fmap known ask rest
                  { st1 with still_skipped := st1.still_skipped ++
                      [⟨s.id, f.question,
                        if s.reason ≠ "" then s.reason else "user skipped"⟩] }

/-- One interactive pass: dedup the skip list, run the ask-once loop from
the known answers, then merge (`merged_values = dict(known);
merged_values.update(new_values)`).  Returns the merged answer map and
the remaining skip list. -/
def csfRun (fields : List NormalizedField) (known : List (String × PyVal))
    (skipped_raw : List SkipItem) (ask : NormalizedField → Option PyVal) :
    List (String × PyVal) × List SkipItem :=
  (dupdate known (csfLoop (build_field_map fields) known ask
      (dedup_skipped_by_id skipped_raw) ⟨[], [], []⟩).new_values,
   (csfLoop (build_field_map fields) known ask
      (dedup_skipped_by_id skipped_raw) ⟨[], [], []⟩).still_skipped)

/-! ## Type-coercion blocks of the two schema normalizers -/

/-- The `# coerce type` chain of `form_field_answer.normalize_fields`
(also verbatim in `complete_skipped_fields.normalize_fields`): note it
has no `file` row. -/
def coerce_type_ffa (rtype : String) (allows_multiple : Bool) :
    String × Bool :=
  if rtype ∈ ["select", "dropdown", "combo", "combobox"] then
    ("select", allows_multiple)
  else if rtype ∈ ["checkbox", "checkboxes"] then ("multiselect", true)
  else if rtype ∈ ["radio", "radiogroup", "choice"] then
    ("radio", allows_multiple)
  else if rtype ∈ ["input", "shorttext", "textinput"] then
    ("text", allows_multiple)
  else if rtype ∈ ["textarea", "longtext"] then ("textarea", allows_multiple)
  else if rtype ∉ ["text", "textarea", "select", "multiselect", "radio",
      "unknown"] then ("unknown", allows_multiple)
  else (rtype, allows_multiple)

/-- The `# coerce type` chain of
`a6_complete_skipped_fields.normalize_fields`, which has the `file` row. -/
def coerce_type_a6 (rtype : String) (allows_multiple : Bool) :
    String × Bool :=
  if rtype ∈ ["select", "dropdown", "combo", "combobox"] then
    ("select", allows_multiple)
  else if rtype ∈ ["checkbox", "checkboxes"] then ("multiselect", true)
  else if rtype ∈ ["radio", "radiogroup", "choice"] then
    ("radio", allows_multiple)
  else if rtype ∈ ["input", "shorttext", "textinput"] then
    ("text", allows_multiple)
  else if rtype ∈ ["textarea", "longtext"] then ("textarea", allows_multiple)
  else if rtype ∈ ["file", "upload", "file_upload", "resume_upload"] then
    ("file", allows_multiple)
  else if rtype ∉ ["text", "textarea", "select", "multiselect", "radio",
      "file", "unknown"] then ("unknown", allows_multiple)
  else (rtype, allows_multiple)

/-- The raw type strings named by the spec's coercion table rows. -/
def specTableRows : List String :=
  ["select", "dropdown", "combo", "combobox",
   "checkbox", "checkboxes",
   "radio", "radiogroup", "choice",
   "input", "shorttext", "textinput",
   "textarea", "longtext",
   "file", "upload", "resume_upload"]

/-! ## `_label_js` of `a4_enhanced_form_extractor.py`

The DOM around a control is abstracted into the results of the queries
the JS performs: the bound `label[for=id]` element, the wrapping label
ancestor, the resolved `aria-labelledby` text, the raw attributes, the
nearest fieldset legend text and the nearby label/heading text. -/

structure VisText where
  text : String
  visible : Bool

structure LabelCtx where
  labelFor : Option VisText
  wrapLabel : Option VisText
  ariaLabelledby : Option String
  ariaLabel : Option String
  placeholder : Option String
  ariaPlaceholder : Option String
  legend : Option String
  nearby : Option String

/-- JS truthiness of an attribute value: absent or empty is falsy. -/
def truthy : Option String → Option String
  | some s => if s = "" then none else some s
  | none => none

/-- The `_label_js` cascade, in source order: bound visible label,
visible wrapping label, non-empty `aria-labelledby` text, `aria-label`,
`placeholder`/`aria-placeholder`, fieldset legend, nearby heading. -/
def label_js (e : LabelCtx) : String :=
  let s1 : Option String :=
    match e.labelFor with
    | some l => if l.visible then some (pyStrip l.text) else none
    | none => none
  let s2 : Option String :=
    match e.wrapLabel with
    | some l => if l.visible then some (pyStrip l.text) else none
    | none => none
  let s3 : Option String :=
    match e.ariaLabelledby with
    | some txt => if txt ≠ "" then some txt else none
    | none => none
  let s4 : Option String := (truthy e.ariaLabel).map pyStrip
  let s5 : Option String :=
    ((truthy e.placeholder).orElse (fun _ => truthy e.ariaPlaceholder)).map
      pyStrip
  let s6 : Option String := e.legend.map pyStrip
  (((((s1.orElse (fun _ => s2)).orElse (fun _ => s3)).orElse
    (fun _ => s4)).orElse (fun _ => s5)).orElse (fun _ => s6)).getD
    ((e.nearby.map pyStrip).getD "")

/-! ## `fill_form_resume.py`: the combobox fill strategy as a UI trace -/

def COMBO_OPEN_PAUSE_MS : Nat := 150
def COMBO_TYPE_DELAY_MS : Nat := 160
def COMBO_POST_TYPE_WAIT_MS : Nat := 600

inductive ComboAction : Type
  | clickCombo
  | sleepMs (ms : Nat)
  | clearInput
  | typeChar (c : Char) (delayMs : Nat)
  | clickOption (label : String)
  | pressEnter
  deriving DecidableEq, Repr

/-- `combo_first_visible_option`: the first of the visible option nodes
(the DOM state after typing is abstracted into the ordered list of
visible option labels). -/
def combo_first_visible_option (visibleOptions : List String) :
    Option String :=
  visibleOptions.head?

/-- `open_combo_type_slow_pick_first` as the trace of UI actions it
performs: click to open, pause, clear, type each character with the fixed
delay, wait the settle interval, then click the first visible option if
any, else press Enter. -/
def open_combo_type_slow_pick_first (value : String)
    (visibleAfterTyping : List String) : List ComboAction :=
  [ComboAction.clickCombo, ComboAction.sleepMs COMBO_OPEN_PAUSE_MS,
   ComboAction.clearInput]
  ++ value.toList.map (fun c => ComboAction.typeChar c COMBO_TYPE_DELAY_MS)
  ++ [ComboAction.sleepMs COMBO_POST_TYPE_WAIT_MS]
  ++ (match combo_first_visible_option visibleAfterTyping with
      | some lab => [ComboAction.clickOption lab]
      | none => [ComboAction.pressEnter])

/-- The scored list step (b) accumulates when no range contains the
number: the code's distance score paired with each option's value, for
the options whose labels parse as ranges. -/
def scoredList (m : PyFloat) (opts : List (String × String)) :
    List (PyFloat × String) :=
  opts.filterMap (fun vl =>
    (months_range_from_label vl.2).map (fun r => (rangeDist m r, vl.1)))

/-- No option's parsed range contains the number `m` (the regime of the
boundary-distance fallback of step (b)). -/
def noRangeContains (m : PyFloat) (opts : List (String × String)) : Bool :=
  opts.all (fun vl =>
    match months_range_from_label vl.2 with
    | some r => !(rangeContainsB m r)
    | none => true)

/-! ## Concrete instances used by the witnesses -/

def wFieldExp : NormalizedField :=
  { id := "exp", question := "Years of experience", type := "select",
    options := [⟨"0-1 years"⟩, ⟨"1-3 years"⟩, ⟨"3-5 years"⟩],
    allows_multiple := false }

def wMoExp : ModelOut :=
  { answers := [("exp", .vstr "1-3 YEARS")], skipped := [] }

def wFieldCtc : NormalizedField :=
  { id := "ctc", question := "What is your expected CTC?", type := "text",
    options := [], allows_multiple := false }

def wMoCtc : ModelOut :=
  { answers := [("ctc", .vstr "12 LPA")], skipped := [] }

def wFieldCompany : NormalizedField :=
  { id := "company", question := "Current company name", type := "text",
    options := [], allows_multiple := false }

def wMoCompany : ModelOut :=
  { answers := [("company", .vstr "Acme Corp")], skipped := [] }

def wC4Field : NormalizedField :=
  { id := "loc", question := "Preferred city", type := "text",
    options := [], allows_multiple := false }

def wOpts3 : List (String × String) :=
  [("Less than 6 months", "Less than 6 months"),
   ("6 months to 1 year", "6 months to 1 year"),
   ("Over 1 year", "Over 1 year")]

def wOpts2 : List (String × String) :=
  [("Less than 6 months", "Less than 6 months"),
   ("Over 1 year", "Over 1 year")]

/-- A control with both a non-empty `aria-label` and a visible bound
`label[for=id]`. -/
def wCtxAria : LabelCtx :=
  { labelFor := some ⟨"Bound label", true⟩, wrapLabel := none,
    ariaLabelledby := none, ariaLabel := some "Aria label",
    placeholder := none, ariaPlaceholder := none, legend := none,
    nearby := none }

/-- The spec's notion of "boundary distance" of a value to a range: the
distance to the nearer bound (used to test the claim's selection rule). -/
def spec_boundary_distance (m : PyFloat) (r : PyFloat × Option PyFloat) :
    PyFloat :=
  match r.2 with
  | some hi => PyFloat.fmin (m.sub r.1).fabs (m.sub hi).fabs
  | none => (m.sub r.1).fabs

/-! # Theorems -/

/-! ## Dictionary lemmas -/

theorem dlookup_nil {V : Type} (k : String) :
    dlookup ([] : List (String × V)) k = none := rfl

theorem dlookup_cons {V : Type} (p : String × V) (d : List (String × V))
    (k : String) :
    dlookup (p :: d) k = if p.1 = k then some p.2 else dlookup d k := rfl

theorem dlookup_append {V : Type} (d₁ d₂ : List (String × V)) (k : String) :
    dlookup (d₁ ++ d₂) k =
      ((dlookup d₁ k).map some).getD (dlookup d₂ k) := by
  induction d₁ with
  | nil => simp [dlookup]
  | cons p t ih =>
      by_cases h : p.1 = k <;> simp [dlookup_cons, h, ih]

theorem dlookup_map_replace_self {V : Type} (d : List (String × V))
    (k : String) (v : V) :
    dlookup (d.map (fun p => if p.1 = k then (k, v) else p)) k =
      (dlookup d k).map (fun _ => v) := by
  induction d with
  | nil => rfl
  | cons p t ih =>
      by_cases h : p.1 = k
      · simp [dlookup_cons, h]
      · simp [dlookup_cons, h, ih]

theorem dlookup_map_replace_ne {V : Type} (d : List (String × V))
    (k k' : String) (v : V) (hk : k ≠ k') :
    dlookup (d.map (fun p => if p.1 = k then (k, v) else p)) k' =
      dlookup d k' := by
  induction d with
  | nil => rfl
  | cons p t ih =>
      by_cases h : p.1 = k
      · have h' : ¬ p.1 = k' := by rw [h]; exact hk
        simp [dlookup_cons, h, hk, h', ih]
      · have hk' : ¬ k' = k := fun hh => hk hh.symm
        by_cases h' : p.1 = k' <;> simp [dlookup_cons, h, h', hk', ih]

theorem dlookup_dinsert_self {V : Type} (d : List (String × V)) (k : String)
    (v : V) : dlookup (dinsert d k v) k = some v := by
  unfold dinsert
  by_cases h : (dlookup d k).isSome
  · rw [if_pos h, dlookup_map_replace_self]
    obtain ⟨w, hw⟩ := Option.isSome_iff_exists.mp h
    simp [hw]
  · rw [if_neg h, dlookup_append]
    have : dlookup d k = none := by
      by_contra hc
      exact h (Option.isSome_iff_ne_none.mpr hc)
    simp [this, dlookup_cons]

theorem dlookup_dinsert_ne {V : Type} (d : List (String × V)) (k k' : String)
    (v : V) (hk : k ≠ k') : dlookup (dinsert d k v) k' = dlookup d k' := by
  unfold dinsert
  by_cases h : (dlookup d k).isSome
  · rw [if_pos h]
    exact dlookup_map_replace_ne d k k' v hk
  · rw [if_neg h, dlookup_append]
    have he : dlookup [(k, v)] k' = none := by
      simp [dlookup_cons, hk, dlookup]
    rw [he]
    cases dlookup d k' <;> rfl

theorem dlookup_dupdate_of_not_mem {V : Type} (d n : List (String × V))
    (k : String) (h : dlookup n k = none) :
    dlookup (dupdate d n) k = dlookup d k := by
  induction n generalizing d with
  | nil => rfl
  | cons p t ih =>
      rw [dlookup_cons] at h
      by_cases hp : p.1 = k
      · simp [hp] at h
      · simp only [dupdate, List.foldl_cons]
        have := ih (dinsert d p.1 p.2) (by simpa [hp] using h)
        simpa [dupdate, dlookup_dinsert_ne d p.1 k p.2 hp] using this

theorem dupdate_nil {V : Type} (d : List (String × V)) : dupdate d [] = d := rfl

theorem ci_match_label_mem {val : String} {labels : List String}
    {lab : String} (h : ci_match_label val labels = some lab) :
    lab ∈ labels := by
  unfold ci_match_label at h
  exact List.mem_of_find?_eq_some h

/-! ## `validate_and_clip` lemmas -/

theorem vacLoop_append (oa : List (String × PyVal))
    (l r : List NormalizedField)
    (acc : List (String × PyVal) × List SkipItem) :
    vacLoop oa (l ++ r) acc = vacLoop oa r (vacLoop oa l acc) := by
  induction l generalizing acc with
  | nil => rfl
  | cons f fs ih => simp [vacLoop, ih]

theorem vacChosen_mem {val : PyVal} {labels : List String} {lab : String}
    (h : lab ∈ vacChosen val labels) : lab ∈ labels := by
  cases val with
  | vlist xs =>
      simp only [vacChosen] at h
      rcases List.mem_filterMap.mp h with ⟨v, _, hm⟩
      cases v with
      | vstr s => exact ci_match_label_mem hm
      | vint n => cases hm
      | vfloat q => cases hm
      | vbool b => cases hm
      | vlist ys => cases hm
      | vnone => cases hm
  | vstr s =>
      simp only [vacChosen] at h
      cases hc : ci_match_label s labels with
      | none => rw [hc] at h; cases h
      | some lab' =>
          rw [hc] at h
          rcases List.mem_singleton.mp h with rfl
          exact ci_match_label_mem hc
  | vint n => cases h
  | vfloat q => cases h
  | vbool b => cases h
  | vnone => cases h

theorem vacStep_fst_shape (oa : List (String × PyVal))
    (acc : List (String × PyVal) × List SkipItem) (f : NormalizedField) :
    (vacStep oa acc f).1 = acc.1 ∨
    ∃ v, (vacStep oa acc f).1 = dinsert acc.1 f.id v := by
  unfold vacStep
  repeat' split
  all_goals first | (left; rfl) | (right; exact ⟨_, rfl⟩)

theorem vacStep_snd_shape (oa : List (String × PyVal))
    (acc : List (String × PyVal) × List SkipItem) (f : NormalizedField) :
    (vacStep oa acc f).2 = acc.2 ∨
    ∃ s, (vacStep oa acc f).2 = acc.2 ++ [s] := by
  unfold vacStep
  repeat' split
  all_goals first | (left; rfl) | (right; exact ⟨_, rfl⟩)

theorem vacStep_fst_lookup_ne (oa : List (String × PyVal))
    (acc : List (String × PyVal) × List SkipItem) (f : NormalizedField)
    (k : String) (hk : f.id ≠ k) :
    dlookup (vacStep oa acc f).1 k = dlookup acc.1 k := by
  rcases vacStep_fst_shape oa acc f with h | ⟨v, h⟩
  · rw [h]
  · rw [h, dlookup_dinsert_ne _ _ _ _ hk]

theorem vacStep_snd_mono (oa : List (String × PyVal))
    (acc : List (String × PyVal) × List SkipItem) (f : NormalizedField)
    {s : SkipItem} (h : s ∈ acc.2) : s ∈ (vacStep oa acc f).2 := by
  rcases vacStep_snd_shape oa acc f with h2 | ⟨x, h2⟩
  · rw [h2]; exact h
  · rw [h2]; exact List.mem_append_left _ h

theorem vacLoop_fst_frame (oa : List (String × PyVal))
    (fs : List NormalizedField)
    (acc : List (String × PyVal) × List SkipItem) (k : String)
    (h : ∀ g ∈ fs, g.id ≠ k) :
    dlookup (vacLoop oa fs acc).1 k = dlookup acc.1 k := by
  induction fs generalizing acc with
  | nil => rfl
  | cons f fs ih =>
      rw [vacLoop, ih _ (fun g hg => h g (List.mem_cons_of_mem _ hg)),
        vacStep_fst_lookup_ne _ _ _ _ (h f (List.mem_cons_self _ _))]

theorem vacLoop_snd_mono (oa : List (String × PyVal))
    (fs : List NormalizedField)
    (acc : List (String × PyVal) × List SkipItem) {s : SkipItem}
    (h : s ∈ acc.2) : s ∈ (vacLoop oa fs acc).2 := by
  induction fs generalizing acc with
  | nil => exact h
  | cons f fs ih => exact ih _ (vacStep_snd_mono oa acc f h)

theorem vacStep_personal (oa : List (String × PyVal))
    (acc : List (String × PyVal) × List SkipItem) (f : NormalizedField)
    (h : is_personal f.question = true) :
    vacStep oa acc f =
      (acc.1, acc.2 ++ [⟨f.id, f.question, "personal/preference"⟩]) := by
  unfold vacStep
  rw [if_pos h]

theorem vacStep_optioned (oa : List (String × PyVal))
    (acc : List (String × PyVal) × List SkipItem) (f : NormalizedField)
    (hopt : f.options ≠ []) :
    (∃ v, (vacStep oa acc f).1 = dinsert acc.1 f.id v ∧
      valueFromOptions v (optLabels f)) ∨
    ((vacStep oa acc f).1 = acc.1 ∧
      ∃ s, s ∈ (vacStep oa acc f).2 ∧ s.id = f.id) := by
  by_cases hp : is_personal f.question = true
  · right
    rw [vacStep_personal oa acc f hp]
    exact ⟨rfl, ⟨f.id, f.question, "personal/preference"⟩,
      List.mem_append_right _ (List.mem_singleton_self _), rfl⟩
  · unfold vacStep
    rw [if_neg hp]
    cases hl : dlookup oa f.id with
    | none =>
        dsimp only
        by_cases ha : acc.2.any (fun s => s.id == f.id) = true
        · rw [if_pos ha]
          rcases List.any_eq_true.mp ha with ⟨s, hs, hbs⟩
          exact Or.inr ⟨rfl, s, hs, by simpa using hbs⟩
        · rw [if_neg ha]
          exact Or.inr ⟨rfl, ⟨f.id, f.question, "not in resume / ambiguous"⟩,
            List.mem_append_right _ (List.mem_singleton_self _), rfl⟩
    | some val =>
        dsimp only
        rw [if_pos hopt]
        by_cases hm : f.allows_multiple = true
        · rw [if_pos hm]
          by_cases hc : vacChosen val (f.options.map (fun o => o.label)) ≠ []
          · rw [if_pos hc]
            left
            refine ⟨_, rfl, Or.inr ⟨_, hc, ?_, rfl⟩⟩
            intro lab hlab
            exact vacChosen_mem hlab
          · rw [if_neg hc]
            exact Or.inr ⟨rfl,
              ⟨f.id, f.question, "no valid option chosen"⟩,
              List.mem_append_right _ (List.mem_singleton_self _), rfl⟩
        · rw [if_neg hm]
          cases val with
          | vstr s =>
              dsimp only
              cases hci : ci_match_label s (f.options.map (fun o => o.label)) with
              | some lab =>
                  dsimp only
                  left
                  exact ⟨_, rfl, Or.inl ⟨lab, ci_match_label_mem hci, rfl⟩⟩
              | none =>
                  dsimp only
                  exact Or.inr ⟨rfl,
                    ⟨f.id, f.question, "no valid option chosen"⟩,
                    List.mem_append_right _ (List.mem_singleton_self _), rfl⟩
          | vint n =>
              exact Or.inr ⟨rfl, ⟨f.id, f.question, "invalid value type"⟩,
                List.mem_append_right _ (List.mem_singleton_self _), rfl⟩
          | vfloat q =>
              exact Or.inr ⟨rfl, ⟨f.id, f.question, "invalid value type"⟩,
                List.mem_append_right _ (List.mem_singleton_self _), rfl⟩
          | vbool b =>
              exact Or.inr ⟨rfl, ⟨f.id, f.question, "invalid value type"⟩,
                List.mem_append_right _ (List.mem_singleton_self _), rfl⟩
          | vlist xs =>
              exact Or.inr ⟨rfl, ⟨f.id, f.question, "invalid value type"⟩,
                List.mem_append_right _ (List.mem_singleton_self _), rfl⟩
          | vnone =>
              exact Or.inr ⟨rfl, ⟨f.id, f.question, "invalid value type"⟩,
                List.mem_append_right _ (List.mem_singleton_self _), rfl⟩

/-- Split a duplicate-free field list around a member: no other field
shares its id. -/
theorem exists_split_of_nodup {fields : List NormalizedField}
    (hnd : (fields.map (fun g => g.id)).Nodup) {f : NormalizedField}
    (hf : f ∈ fields) :
    ∃ l r, fields = l ++ f :: r ∧ (∀ g ∈ l, g.id ≠ f.id) ∧
      (∀ g ∈ r, g.id ≠ f.id) := by
  rcases List.append_of_mem hf with ⟨l, r, rfl⟩
  refine ⟨l, r, rfl, ?_, ?_⟩
  · intro g hg hgid
    rw [List.map_append, List.map_cons] at hnd
    rcases List.nodup_append.mp hnd with ⟨_, _, hdisj⟩
    exact hdisj (List.mem_map_of_mem _ hg) (by rw [hgid]; exact List.mem_cons_self _ _)
  · intro g hg hgid
    rw [List.map_append, List.map_cons] at hnd
    rcases List.nodup_append.mp hnd with ⟨_, hnd2, _⟩
    exact (List.nodup_cons.mp hnd2).1 (by rw [← hgid]; exact List.mem_map_of_mem _ hg)

/-- A personal field's id is never present in the clipped answers map
(assuming field ids are duplicate-free). -/
theorem personal_lookup_none {fields : List NormalizedField} {mo : ModelOut}
    {f : NormalizedField}
    (hnd : (fields.map (fun g => g.id)).Nodup) (hf : f ∈ fields)
    (hp : is_personal f.question = true) :
    dlookup (validate_and_clip fields mo).1 f.id = none := by
  rcases exists_split_of_nodup hnd hf with ⟨l, r, rfl, hl, hr⟩
  unfold validate_and_clip
  rw [vacLoop_append, vacLoop, vacLoop_fst_frame _ _ _ _
    (fun g hg => fun he => hr g hg he)]
  rw [vacStep_personal _ _ _ hp]
  rw [vacLoop_fst_frame _ _ _ _ (fun g hg => fun he => hl g hg he)]
  rfl

/-! ## Claim theorems: C1, C2, C10 -/

/-- C1: for every field with non-empty options (field ids duplicate-free),
any value `validate_and_clip` stores for that field's id is drawn from the
field's option labels (one canonical label, or a non-empty list of
canonical labels), and when no value is stored a skip record with that
field's id is emitted — never an answer outside the closed set. -/
theorem C1_resolved_answers_within_options
    (fields : List NormalizedField) (mo : ModelOut) (f : NormalizedField)
    (hnd : (fields.map (fun g => g.id)).Nodup) (hf : f ∈ fields)
    (hopt : f.options ≠ []) :
    (∀ v, dlookup (validate_and_clip fields mo).1 f.id = some v →
      valueFromOptions v (optLabels f)) ∧
    (dlookup (validate_and_clip fields mo).1 f.id = none →
      ∃ s, s ∈ (validate_and_clip fields mo).2 ∧ s.id = f.id) := by
  rcases exists_split_of_nodup hnd hf with ⟨l, r, hsplit, hl, hr⟩
  have hframe_l : dlookup (vacLoop mo.answers l
      ([], mo.skipped.filter (fun s => s.id ≠ "" && s.reason ≠ ""))).1
        f.id = none := by
    rw [vacLoop_fst_frame _ _ _ _ (fun g hg => hl g hg)]
    rfl
  have hvc : validate_and_clip fields mo =
      vacLoop mo.answers r (vacStep mo.answers (vacLoop mo.answers l
        ([], mo.skipped.filter (fun s => s.id ≠ "" && s.reason ≠ ""))) f) := by
    rw [validate_and_clip, hsplit, vacLoop_append, vacLoop]
  rcases vacStep_optioned mo.answers (vacLoop mo.answers l
      ([], mo.skipped.filter (fun s => s.id ≠ "" && s.reason ≠ ""))) f hopt with
    ⟨v, hv, hval⟩ | ⟨hS1, s, hsmem, hsid⟩
  · have hfin : dlookup (validate_and_clip fields mo).1 f.id = some v := by
      rw [hvc, vacLoop_fst_frame _ _ _ _ (fun g hg => hr g hg), hv,
        dlookup_dinsert_self]
    constructor
    · intro v' h'
      rw [hfin] at h'
      injection h' with h2
      rw [← h2]
      exact hval
    · intro h0
      rw [hfin] at h0
      cases h0
  · constructor
    · intro v' h'
      rw [hvc, vacLoop_fst_frame _ _ _ _ (fun g hg => hr g hg), hS1,
        hframe_l] at h'
      cases h'
    · intro _
      refine ⟨s, ?_, hsid⟩
      rw [hvc]
      exact vacLoop_snd_mono _ _ _ hsmem

theorem C1_resolved_answers_within_options_witness :
    (∀ v, dlookup (validate_and_clip [wFieldExp] wMoExp).1 wFieldExp.id =
        some v → valueFromOptions v (optLabels wFieldExp)) ∧
    (dlookup (validate_and_clip [wFieldExp] wMoExp).1 wFieldExp.id = none →
      ∃ s, s ∈ (validate_and_clip [wFieldExp] wMoExp).2 ∧
        s.id = wFieldExp.id) :=
  C1_resolved_answers_within_options [wFieldExp] wMoExp wFieldExp
    (by simp [wFieldExp]) (List.mem_singleton_self _) (by simp [wFieldExp])

/-- C2: a field whose question matches the personal pattern set is always
recorded as a skip with reason `personal/preference` and its id is never
placed in the answers map (field ids duplicate-free), for every model
output — in particular even when the model output contains an answer for
that field, since the gate fires before the model's answer is consulted. -/
theorem C2_personal_gate_skips_before_model
    (fields : List NormalizedField) (mo : ModelOut) (f : NormalizedField)
    (hnd : (fields.map (fun g => g.id)).Nodup) (hf : f ∈ fields)
    (hp : is_personal f.question = true) :
    (⟨f.id, f.question, "personal/preference"⟩ : SkipItem) ∈
      (validate_and_clip fields mo).2 ∧
    dlookup (validate_and_clip fields mo).1 f.id = none := by
  constructor
  · rcases List.append_of_mem hf with ⟨l, r, rfl⟩
    rw [validate_and_clip, vacLoop_append, vacLoop, vacStep_personal _ _ _ hp]
    exact vacLoop_snd_mono _ _ _
      (List.mem_append_right _ (List.mem_singleton_self _))
  · exact personal_lookup_none hnd hf hp

theorem C2_personal_gate_skips_before_model_witness :
    (⟨wFieldCtc.id, wFieldCtc.question, "personal/preference"⟩ : SkipItem) ∈
      (validate_and_clip [wFieldCtc] wMoCtc).2 ∧
    dlookup (validate_and_clip [wFieldCtc] wMoCtc).1 wFieldCtc.id = none :=
  C2_personal_gate_skips_before_model [wFieldCtc] wMoCtc wFieldCtc
    (by simp [wFieldCtc]) (List.mem_singleton_self _) (by decide)

/-- C10: the personal classifier matches its patterns as standalone words
anywhere in the question, so any question containing the word "current"
or "expected" is classified personal, and (ids duplicate-free) the field
is excluded from the answers map for every model output — even when the
question is not about compensation, preferences or demographics. -/
theorem C10_current_expected_always_personal
    (fields : List NormalizedField) (mo : ModelOut) (f : NormalizedField)
    (hnd : (fields.map (fun g => g.id)).Nodup) (hf : f ∈ fields)
    (hw : containsWordCI f.question "current" = true ∨
      containsWordCI f.question "expected" = true) :
    is_personal f.question = true ∧
    dlookup (validate_and_clip fields mo).1 f.id = none := by
  have hp : is_personal f.question = true := by
    rcases hw with h | h
    · exact List.any_eq_true.mpr
        ⟨bword "current", by simp [PERSONAL_PATTERNS], h⟩
    · exact List.any_eq_true.mpr
        ⟨bword "expected", by simp [PERSONAL_PATTERNS], h⟩
  exact ⟨hp, personal_lookup_none hnd hf hp⟩

theorem C10_current_expected_always_personal_witness :
    is_personal wFieldCompany.question = true ∧
    dlookup (validate_and_clip [wFieldCompany] wMoCompany).1
      wFieldCompany.id = none :=
  C10_current_expected_always_personal [wFieldCompany] wMoCompany
    wFieldCompany (by simp [wFieldCompany]) (List.mem_singleton_self _)
    (Or.inl (by decide))

/-! ## Merge lemmas for the interactive completion pass (C4) -/

theorem dlookup_dinsert_isSome {V : Type} (d : List (String × V))
    (k k' : String) (v : V) (h : (dlookup d k).isSome) :
    (dlookup (dinsert d k' v) k).isSome := by
  by_cases hk : k' = k
  · subst hk
    rw [dlookup_dinsert_self]
    rfl
  · rw [dlookup_dinsert_ne _ _ _ _ hk]
    exact h

theorem dlookup_dupdate_isSome_left {V : Type} (d n : List (String × V))
    (k : String) (h : (dlookup d k).isSome) :
    (dlookup (dupdate d n) k).isSome := by
  induction n generalizing d with
  | nil => exact h
  | cons p t ih =>
      exact ih (dinsert d p.1 p.2) (dlookup_dinsert_isSome _ _ _ _ h)

theorem dupdate_cons {V : Type} (d : List (String × V)) (p : String × V)
    (t : List (String × V)) :
    dupdate d (p :: t) = dupdate (dinsert d p.1 p.2) t := rfl

theorem dlookup_dupdate_isSome_right {V : Type} (d n : List (String × V))
    (k : String) (h : (dlookup n k).isSome) :
    (dlookup (dupdate d n) k).isSome := by
  induction n generalizing d with
  | nil => cases h
  | cons p t ih =>
      rw [dupdate_cons]
      by_cases hk : (dlookup t k).isSome
      · exact ih (dinsert d p.1 p.2) hk
      · have hp : p.1 = k := by
          rw [dlookup_cons] at h
          by_contra hc
          rw [if_neg hc] at h
          exact hk h
        subst hp
        exact dlookup_dupdate_isSome_left (dinsert d p.1 p.2) t p.1
          (by rw [dlookup_dinsert_self]; rfl)

/-! ### Unfolding equations for one iteration of the interactive loop -/

theorem csfLoop_cons_empty (fmap : List (String × NormalizedField))
    (known : List (String × PyVal)) (ask : NormalizedField → Option PyVal)
    (s : SkipItem) (rest : List SkipItem) (st : CsfState) (h1 : s.id = "") :
    csfLoop fmap known ask (s :: rest) st = csfLoop fmap known ask rest st := by
  simp only [csfLoop]
  rw [if_pos h1]

theorem csfLoop_cons_known (fmap : List (String × NormalizedField))
    (known : List (String × PyVal)) (ask : NormalizedField → Option PyVal)
    (s : SkipItem) (rest : List SkipItem) (st : CsfState) (h1 : ¬ s.id = "")
    (h2 : (dlookup known s.id).isSome) :
    csfLoop fmap known ask (s :: rest) st = csfLoop fmap known ask rest st := by
  simp only [csfLoop]
  rw [if_neg h1, if_pos h2]

theorem csfLoop_cons_asked (fmap : List (String × NormalizedField))
    (known : List (String × PyVal)) (ask : NormalizedField → Option PyVal)
    (s : SkipItem) (rest : List SkipItem) (st : CsfState) (h1 : ¬ s.id = "")
    (h2 : ¬ (dlookup known s.id).isSome) (h3 : s.id ∈ st.asked) :
    csfLoop fmap known ask (s :: rest) st = csfLoop fmap known ask rest st := by
  simp only [csfLoop]
  rw [if_neg h1, if_neg h2, if_pos h3]

theorem csfLoop_cons_nometa (fmap : List (String × NormalizedField))
    (known : List (String × PyVal)) (ask : NormalizedField → Option PyVal)
    (s : SkipItem) (rest : List SkipItem) (st : CsfState) (h1 : ¬ s.id = "")
    (h2 : ¬ (dlookup known s.id).isSome) (h3 : ¬ s.id ∈ st.asked)
    (hf : dlookup fmap s.id = none) :
    csfLoop fmap known ask (s :: rest) st =
      csfLoop fmap known ask rest
        ⟨st.new_values,
         st.still_skipped ++ [⟨s.id, s.question, "field metadata not found"⟩],
         st.asked ++ [s.id]⟩ := by
  simp only [csfLoop]
  rw [if_neg h1, if_neg h2, if_neg h3, hf]

theorem csfLoop_cons_answered (fmap : List (String × NormalizedField))
    (known : List (String × PyVal)) (ask : NormalizedField → Option PyVal)
    (s : SkipItem) (rest : List SkipItem) (st : CsfState)
    (f : NormalizedField) (val : PyVal) (h1 : ¬ s.id = "")
    (h2 : ¬ (dlookup known s.id).isSome) (h3 : ¬ s.id ∈ st.asked)
    (hf : dlookup fmap s.id = some f) (ha : ask f = some val) :
    csfLoop fmap known ask (s :: rest) st =
      csfLoop fmap known ask rest
        ⟨dinsert st.new_values s.id val, st.still_skipped,
         st.asked ++ [s.id]⟩ := by
  simp only [csfLoop]
  rw [if_neg h1, if_neg h2, if_neg h3, hf]
  dsimp only
  rw [ha]

theorem csfLoop_cons_unanswered (fmap : List (String × NormalizedField))
    (known : List (String × PyVal)) (ask : NormalizedField → Option PyVal)
    (s : SkipItem) (rest : List SkipItem) (st : CsfState)
    (f : NormalizedField) (h1 : ¬ s.id = "")
    (h2 : ¬ (dlookup known s.id).isSome) (h3 : ¬ s.id ∈ st.asked)
    (hf : dlookup fmap s.id = some f) (ha : ask f = none) :
    csfLoop fmap known ask (s :: rest) st =
      csfLoop fmap known ask rest
        ⟨st.new_values,
         st.still_skipped ++ [⟨s.id, f.question,
           if s.reason ≠ "" then s.reason else "user skipped"⟩],
         st.asked ++ [s.id]⟩ := by
  simp only [csfLoop]
  rw [if_neg h1, if_neg h2, if_neg h3, hf]
  dsimp only
  rw [ha]

theorem csfLoop_nv_mono (fmap : List (String × NormalizedField))
    (known : List (String × PyVal)) (ask : NormalizedField → Option PyVal)
    (rest : List SkipItem) (st : CsfState) (k : String)
    (h : (dlookup st.new_values k).isSome) :
    (dlookup (csfLoop fmap known ask rest st).new_values k).isSome := by
  induction rest generalizing st with
  | nil => exact h
  | cons s rest ih =>
      by_cases h1 : s.id = ""
      · rw [csfLoop_cons_empty _ _ _ _ _ _ h1]; exact ih st h
      · by_cases h2 : (dlookup known s.id).isSome
        · rw [csfLoop_cons_known _ _ _ _ _ _ h1 h2]; exact ih st h
        · by_cases h3 : s.id ∈ st.asked
          · rw [csfLoop_cons_asked _ _ _ _ _ _ h1 h2 h3]; exact ih st h
          · cases hf : dlookup fmap s.id with
            | none =>
                rw [csfLoop_cons_nometa _ _ _ _ _ _ h1 h2 h3 hf]
                exact ih _ h
            | some f =>
                cases ha : ask f with
                | some val =>
                    rw [csfLoop_cons_answered _ _ _ _ _ _ _ _ h1 h2 h3 hf ha]
                    exact ih _ (dlookup_dinsert_isSome _ _ _ _ h)
                | none =>
                    rw [csfLoop_cons_unanswered _ _ _ _ _ _ _ h1 h2 h3 hf ha]
                    exact ih _ h

theorem csfLoop_nv_fresh (fmap : List (String × NormalizedField))
    (known : List (String × PyVal)) (ask : NormalizedField → Option PyVal)
    (rest : List SkipItem) (st : CsfState)
    (hst : ∀ k, (dlookup st.new_values k).isSome → dlookup known k = none) :
    ∀ k, (dlookup (csfLoop fmap known ask rest st).new_values k).isSome →
      dlookup known k = none := by
  induction rest generalizing st with
  | nil => exact hst
  | cons s rest ih =>
      by_cases h1 : s.id = ""
      · rw [csfLoop_cons_empty _ _ _ _ _ _ h1]; exact ih st hst
      · by_cases h2 : (dlookup known s.id).isSome
        · rw [csfLoop_cons_known _ _ _ _ _ _ h1 h2]; exact ih st hst
        · by_cases h3 : s.id ∈ st.asked
          · rw [csfLoop_cons_asked _ _ _ _ _ _ h1 h2 h3]; exact ih st hst
          · cases hf : dlookup fmap s.id with
            | none =>
                rw [csfLoop_cons_nometa _ _ _ _ _ _ h1 h2 h3 hf]
                exact ih _ hst
            | some f =>
                cases ha : ask f with
                | some val =>
                    rw [csfLoop_cons_answered _ _ _ _ _ _ _ _ h1 h2 h3 hf ha]
                    refine ih _ (fun k hk => ?_)
                    by_cases hks : s.id = k
                    · subst hks
                      exact Option.not_isSome_iff_eq_none.mp h2
                    · rw [dlookup_dinsert_ne _ _ _ _ hks] at hk
                      exact hst k hk
                | none =>
                    rw [csfLoop_cons_unanswered _ _ _ _ _ _ _ h1 h2 h3 hf ha]
                    exact ih _ hst

/-- A run-1 completeness invariant: any skip entry whose id is fresh,
not yet asked, has field metadata and would be answered by the user is
recorded in the final `new_values`. -/
theorem csfLoop_answers_recorded (fmap : List (String × NormalizedField))
    (known : List (String × PyVal)) (ask : NormalizedField → Option PyVal)
    (rest : List SkipItem) (st : CsfState) :
    ∀ s ∈ rest, s.id ≠ "" → dlookup known s.id = none →
      s.id ∉ st.asked →
      ∀ f, dlookup fmap s.id = some f → ask f ≠ none →
        (dlookup (csfLoop fmap known ask rest st).new_values s.id).isSome := by
  induction rest generalizing st with
  | nil => intro s hs; cases hs
  | cons s' rest ih =>
      intro s hs hid hkn hask f hf haf
      rcases List.mem_cons.mp hs with rfl | hmem
      · -- the target is the head: it is processed now
        have h2 : ¬ (dlookup known s.id).isSome = true := by rw [hkn]; simp
        cases ha : ask f with
        | some val =>
            rw [csfLoop_cons_answered _ _ _ _ _ _ _ _ hid h2 hask hf ha]
            exact csfLoop_nv_mono _ _ _ _ _ _
              (by rw [dlookup_dinsert_self]; rfl)
        | none => exact absurd ha haf
      · -- the target is in the tail
        by_cases h1 : s'.id = ""
        · rw [csfLoop_cons_empty _ _ _ _ _ _ h1]
          exact ih st s hmem hid hkn hask f hf haf
        · by_cases h2 : (dlookup known s'.id).isSome
          · rw [csfLoop_cons_known _ _ _ _ _ _ h1 h2]
            exact ih st s hmem hid hkn hask f hf haf
          · by_cases h3 : s'.id ∈ st.asked
            · rw [csfLoop_cons_asked _ _ _ _ _ _ h1 h2 h3]
              exact ih st s hmem hid hkn hask f hf haf
            · by_cases hsame : s.id = s'.id
              · -- same id as the head: the head's processing decides it
                cases hfm : dlookup fmap s'.id with
                | none =>
                    rw [hsame] at hf
                    rw [hfm] at hf
                    cases hf
                | some g =>
                    have hg : g = f := by
                      rw [hsame] at hf
                      rw [hfm] at hf
                      injection hf
                    subst hg
                    cases ha : ask g with
                    | some val =>
                        rw [csfLoop_cons_answered _ _ _ _ _ _ _ _ h1 h2 h3
                          hfm ha]
                        refine csfLoop_nv_mono _ _ _ _ _ _ ?_
                        rw [hsame, dlookup_dinsert_self]
                        rfl
                    | none => exact absurd ha haf
              · -- different id: recurse, the asked-set extension is harmless
                have hask' : s.id ∉ st.asked ++ [s'.id] := by
                  intro hc
                  rcases List.mem_append.mp hc with hc | hc
                  · exact hask hc
                  · exact hsame (List.mem_singleton.mp hc)
                cases hfm : dlookup fmap s'.id with
                | none =>
                    rw [csfLoop_cons_nometa _ _ _ _ _ _ h1 h2 h3 hfm]
                    exact ih _ s hmem hid hkn hask' f hf haf
                | some g =>
                    cases ha : ask g with
                    | some val =>
                        rw [csfLoop_cons_answered _ _ _ _ _ _ _ _ h1 h2 h3
                          hfm ha]
                        exact ih _ s hmem hid hkn hask' f hf haf
                    | none =>
                        rw [csfLoop_cons_unanswered _ _ _ _ _ _ _ h1 h2 h3
                          hfm ha]
                        exact ih _ s hmem hid hkn hask' f hf haf

/-- A second pass over ids that are all either merged already or
unanswerable adds nothing. -/
theorem csfLoop_no_new (fmap : List (String × NormalizedField))
    (known : List (String × PyVal)) (ask : NormalizedField → Option PyVal)
    (rest : List SkipItem) (st : CsfState) (hnv : st.new_values = [])
    (hall : ∀ s ∈ rest, s.id ≠ "" → ¬ (dlookup known s.id).isSome →
      ∀ f, dlookup fmap s.id = some f → ask f = none) :
    (csfLoop fmap known ask rest st).new_values = [] := by
  induction rest generalizing st with
  | nil => exact hnv
  | cons s rest ih =>
      have hall' : ∀ s' ∈ rest, s'.id ≠ "" → ¬ (dlookup known s'.id).isSome →
          ∀ f, dlookup fmap s'.id = some f → ask f = none :=
        fun s' hs' => hall s' (List.mem_cons_of_mem _ hs')
      by_cases h1 : s.id = ""
      · rw [csfLoop_cons_empty _ _ _ _ _ _ h1]; exact ih st hnv hall'
      · by_cases h2 : (dlookup known s.id).isSome
        · rw [csfLoop_cons_known _ _ _ _ _ _ h1 h2]; exact ih st hnv hall'
        · by_cases h3 : s.id ∈ st.asked
          · rw [csfLoop_cons_asked _ _ _ _ _ _ h1 h2 h3]
            exact ih st hnv hall'
          · cases hf : dlookup fmap s.id with
            | none =>
                rw [csfLoop_cons_nometa _ _ _ _ _ _ h1 h2 h3 hf]
                exact ih _ hnv hall'
            | some f =>
                cases ha : ask f with
                | some val =>
                    exact absurd ha (by
                      rw [hall s (List.mem_cons_self _ _) h1 h2 f hf]
                      simp)
                | none =>
                    rw [csfLoop_cons_unanswered _ _ _ _ _ _ _ h1 h2 h3 hf ha]
                    exact ih _ hnv hall'

/-! ## Claim theorem: C4 -/

/-- C4: the interactive pass's merge never overwrites an id already
present in the existing answer map (the loop skips every such id, so the
final `dict(known); update(new_values)` is disjoint), and the pass is
idempotent: running it again on its own merged output changes nothing,
for any skip list and any deterministic user-answer function. -/
theorem C4_merge_no_overwrite_and_idempotent
    (fields : List NormalizedField) (known : List (String × PyVal))
    (skipped : List SkipItem) (ask : NormalizedField → Option PyVal) :
    (∀ k v, dlookup known k = some v →
      dlookup (csfRun fields known skipped ask).1 k = some v) ∧
    (csfRun fields (csfRun fields known skipped ask).1 skipped ask).1 =
      (csfRun fields known skipped ask).1 := by
  have hfresh := csfLoop_nv_fresh (build_field_map fields) known ask
    (dedup_skipped_by_id skipped) ⟨[], [], []⟩ (fun k hk => by cases hk)
  constructor
  · intro k v hv
    unfold csfRun
    dsimp only
    rw [dlookup_dupdate_of_not_mem]
    · exact hv
    · by_contra hc
      have := hfresh k (Option.isSome_iff_ne_none.mpr hc)
      rw [this] at hv
      cases hv
  · have hall : ∀ s ∈ dedup_skipped_by_id skipped, s.id ≠ "" →
        ¬ (dlookup (csfRun fields known skipped ask).1 s.id).isSome →
        ∀ f, dlookup (build_field_map fields) s.id = some f →
          ask f = none := by
      intro s hs hid hm f hf
      have hkn : dlookup known s.id = none := by
        by_contra hc
        exact hm (dlookup_dupdate_isSome_left _ _ _
          (Option.isSome_iff_ne_none.mpr hc))
      by_contra hc
      exact hm (dlookup_dupdate_isSome_right _ _ _
        (csfLoop_answers_recorded _ _ _ _ _ s hs hid hkn (by simp) f hf hc))
    have h2 : (csfLoop (build_field_map fields)
        (csfRun fields known skipped ask).1 ask
        (dedup_skipped_by_id skipped) ⟨[], [], []⟩).new_values = [] :=
      csfLoop_no_new _ _ _ _ _ rfl hall
    have h3 : (csfRun fields (csfRun fields known skipped ask).1
        skipped ask).1 =
        dupdate (csfRun fields known skipped ask).1
          (csfLoop (build_field_map fields)
            (csfRun fields known skipped ask).1 ask
            (dedup_skipped_by_id skipped) ⟨[], [], []⟩).new_values := rfl
    rw [h3, h2, dupdate_nil]

theorem C4_merge_no_overwrite_and_idempotent_witness :
    dlookup (csfRun [wC4Field] [("loc", PyVal.vstr "Pune")]
      [⟨"loc", "Preferred city", "not in resume / ambiguous"⟩]
      (fun _ => some (PyVal.vstr "Mumbai"))).1 "loc" =
      some (PyVal.vstr "Pune") :=
  (C4_merge_no_overwrite_and_idempotent [wC4Field]
    [("loc", PyVal.vstr "Pune")]
    [⟨"loc", "Preferred city", "not in resume / ambiguous"⟩]
    (fun _ => some (PyVal.vstr "Mumbai"))).1 "loc" (PyVal.vstr "Pune") rfl

/-! ## Dedup lemmas (C5) -/

theorem pass1Aux_lookup_prop (P : SkipItem → Prop) (l : List SkipItem)
    (ch : List (String × SkipItem)) (hl : ∀ it ∈ l, P it)
    (hch : ∀ k it, dlookup ch k = some it → P it) :
    ∀ k it, dlookup (dedup_skipped_pass1Aux l ch) k = some it → P it := by
  induction l generalizing ch with
  | nil => exact hch
  | cons item rest ih =>
      have hl' : ∀ it ∈ rest, P it :=
        fun it hit => hl it (List.mem_cons_of_mem _ hit)
      have hins : ∀ k it, dlookup (dinsert ch item.id item) k = some it →
          P it := by
        intro k it hk
        by_cases hkk : item.id = k
        · subst hkk
          rw [dlookup_dinsert_self] at hk
          injection hk with h2
          rw [← h2]
          exact hl item (List.mem_cons_self _ _)
        · rw [dlookup_dinsert_ne _ _ _ _ hkk] at hk
          exact hch k it hk
      simp only [dedup_skipped_pass1Aux]
      by_cases h1 : item.id = ""
      · rw [if_pos h1]
        exact ih ch hl' hch
      · rw [if_neg h1]
        cases hc : dlookup ch item.id with
        | none => exact ih _ hl' hins
        | some curr =>
            dsimp only
            by_cases h2 : item.reason = "personal/preference" ∧
                curr.reason ≠ "personal/preference"
            · rw [if_pos h2]
              exact ih _ hl' hins
            · rw [if_neg h2]
              exact ih ch hl' hch

theorem pass1Aux_id_inv (l : List SkipItem) (ch : List (String × SkipItem))
    (hch : ∀ k it, dlookup ch k = some it → it.id = k) :
    ∀ k it, dlookup (dedup_skipped_pass1Aux l ch) k = some it →
      it.id = k := by
  induction l generalizing ch with
  | nil => exact hch
  | cons item rest ih =>
      have hins : ∀ k it, dlookup (dinsert ch item.id item) k = some it →
          it.id = k := by
        intro k it hk
        by_cases hkk : item.id = k
        · subst hkk
          rw [dlookup_dinsert_self] at hk
          injection hk with h2
          rw [← h2]
        · rw [dlookup_dinsert_ne _ _ _ _ hkk] at hk
          exact hch k it hk
      simp only [dedup_skipped_pass1Aux]
      by_cases h1 : item.id = ""
      · rw [if_pos h1]
        exact ih ch hch
      · rw [if_neg h1]
        cases hc : dlookup ch item.id with
        | none => exact ih _ hins
        | some curr =>
            dsimp only
            by_cases h2 : item.reason = "personal/preference" ∧
                curr.reason ≠ "personal/preference"
            · rw [if_pos h2]
              exact ih _ hins
            · rw [if_neg h2]
              exact ih ch hch

theorem pass1Aux_isSome_mono (l : List SkipItem)
    (ch : List (String × SkipItem)) (k : String)
    (h : (dlookup ch k).isSome) :
    (dlookup (dedup_skipped_pass1Aux l ch) k).isSome := by
  induction l generalizing ch with
  | nil => exact h
  | cons item rest ih =>
      simp only [dedup_skipped_pass1Aux]
      by_cases h1 : item.id = ""
      · rw [if_pos h1]; exact ih ch h
      · rw [if_neg h1]
        cases hc : dlookup ch item.id with
        | none => exact ih _ (dlookup_dinsert_isSome _ _ _ _ h)
        | some curr =>
            dsimp only
            by_cases h2 : item.reason = "personal/preference" ∧
                curr.reason ≠ "personal/preference"
            · rw [if_pos h2]
              exact ih _ (dlookup_dinsert_isSome _ _ _ _ h)
            · rw [if_neg h2]
              exact ih ch h

theorem pass1Aux_isSome_of_mem (l : List SkipItem)
    (ch : List (String × SkipItem)) :
    ∀ s ∈ l, s.id ≠ "" →
      (dlookup (dedup_skipped_pass1Aux l ch) s.id).isSome := by
  induction l generalizing ch with
  | nil => intro s hs; cases hs
  | cons item rest ih =>
      intro s hs hsid
      rcases List.mem_cons.mp hs with rfl | hmem
      · simp only [dedup_skipped_pass1Aux]
        rw [if_neg hsid]
        cases hc : dlookup ch s.id with
        | none =>
            exact pass1Aux_isSome_mono _ _ _
              (by rw [dlookup_dinsert_self]; rfl)
        | some curr =>
            dsimp only
            by_cases h2 : s.reason = "personal/preference" ∧
                curr.reason ≠ "personal/preference"
            · rw [if_pos h2]
              exact pass1Aux_isSome_mono _ _ _
                (by rw [dlookup_dinsert_self]; rfl)
            · rw [if_neg h2]
              exact pass1Aux_isSome_mono _ _ _ (by rw [hc]; rfl)
      · simp only [dedup_skipped_pass1Aux]
        by_cases h1 : item.id = ""
        · rw [if_pos h1]; exact ih ch s hmem hsid
        · rw [if_neg h1]
          cases hc : dlookup ch item.id with
          | none => exact ih _ s hmem hsid
          | some curr =>
              dsimp only
              by_cases h2 : item.reason = "personal/preference" ∧
                  curr.reason ≠ "personal/preference"
              · rw [if_pos h2]
                exact ih _ s hmem hsid
              · rw [if_neg h2]
                exact ih ch s hmem hsid

theorem pass2_nodup_and_not_seen (chosen : List (String × SkipItem))
    (hch : ∀ k it, dlookup chosen k = some it → it.id = k)
    (l : List SkipItem) :
    ∀ seen,
      ((dedup_skipped_pass2 chosen l seen).map (fun s => s.id)).Nodup ∧
      ∀ t ∈ dedup_skipped_pass2 chosen l seen, t.id ∉ seen := by
  induction l with
  | nil =>
      intro seen
      exact ⟨List.nodup_nil, fun t ht => absurd ht (List.not_mem_nil t)⟩
  | cons item rest ih =>
      intro seen
      simp only [dedup_skipped_pass2]
      by_cases h1 : item.id = "" ∨ item.id ∈ seen
      · rw [if_pos h1]
        exact ih seen
      · rw [if_neg h1]
        cases hc : dlookup chosen item.id with
        | none => exact ih seen
        | some c =>
            dsimp only
            have hcid : c.id = item.id := hch _ _ hc
            constructor
            · rw [List.map_cons, List.nodup_cons]
              refine ⟨?_, (ih (seen ++ [item.id])).1⟩
              intro hcmem
              rcases List.mem_map.mp hcmem with ⟨t, ht, htid⟩
              have := (ih (seen ++ [item.id])).2 t ht
              rw [htid, hcid] at this
              exact this (List.mem_append_right _ (List.mem_singleton_self _))
            · intro t ht
              rcases List.mem_cons.mp ht with rfl | ht'
              · rw [hcid]
                intro hcontra
                exact h1 (Or.inr hcontra)
              · intro hcontra
                exact (ih (seen ++ [item.id])).2 t ht'
                  (List.mem_append_left _ hcontra)

theorem pass2_source (chosen : List (String × SkipItem))
    (hch : ∀ k it, dlookup chosen k = some it → it.id = k)
    (l : List SkipItem) :
    ∀ seen t, t ∈ dedup_skipped_pass2 chosen l seen →
      ∃ s ∈ l, s.id = t.id := by
  induction l with
  | nil => intro seen t ht; cases ht
  | cons item rest ih =>
      intro seen t ht
      simp only [dedup_skipped_pass2] at ht
      by_cases h1 : item.id = "" ∨ item.id ∈ seen
      · rw [if_pos h1] at ht
        rcases ih seen t ht with ⟨s, hs, hsid⟩
        exact ⟨s, List.mem_cons_of_mem _ hs, hsid⟩
      · rw [if_neg h1] at ht
        cases hc : dlookup chosen item.id with
        | none =>
            rw [hc] at ht
            rcases ih seen t ht with ⟨s, hs, hsid⟩
            exact ⟨s, List.mem_cons_of_mem _ hs, hsid⟩
        | some c =>
            rw [hc] at ht
            dsimp only at ht
            rcases List.mem_cons.mp ht with rfl | ht'
            · exact ⟨item, List.mem_cons_self _ _, (hch _ _ hc).symm⟩
            · rcases ih _ t ht' with ⟨s, hs, hsid⟩
              exact ⟨s, List.mem_cons_of_mem _ hs, hsid⟩

theorem pass2_covers (chosen : List (String × SkipItem))
    (hch : ∀ k it, dlookup chosen k = some it → it.id = k)
    (l : List SkipItem) :
    ∀ seen fid, fid ≠ "" → fid ∉ seen → (∃ s ∈ l, s.id = fid) →
      (dlookup chosen fid).isSome →
      ∃ t ∈ dedup_skipped_pass2 chosen l seen, t.id = fid := by
  induction l with
  | nil =>
      intro seen fid _ _ hex _
      rcases hex with ⟨s, hs, _⟩
      cases hs
  | cons item rest ih =>
      intro seen fid hfid hseen hex hsome
      simp only [dedup_skipped_pass2]
      by_cases h1 : item.id = "" ∨ item.id ∈ seen
      · rw [if_pos h1]
        rcases hex with ⟨s, hs, hsid⟩
        rcases List.mem_cons.mp hs with rfl | hmem
        · rcases h1 with h1 | h1
          · exact absurd (hsid ▸ h1) hfid
          · exact absurd (hsid ▸ h1) hseen
        · exact ih seen fid hfid hseen ⟨s, hmem, hsid⟩ hsome
      · rw [if_neg h1]
        by_cases hfi : item.id = fid
        · cases hc : dlookup chosen item.id with
          | none =>
              rw [hfi] at hc
              rw [hc] at hsome
              cases hsome
          | some c =>
              dsimp only
              refine ⟨c, List.mem_cons_self _ _, ?_⟩
              rw [hch _ _ hc, hfi]
        · cases hc : dlookup chosen item.id with
          | none =>
              rcases hex with ⟨s, hs, hsid⟩
              rcases List.mem_cons.mp hs with rfl | hmem
              · exact absurd hsid hfi
              · exact ih seen fid hfid hseen ⟨s, hmem, hsid⟩ hsome
          | some c =>
              dsimp only
              rcases hex with ⟨s, hs, hsid⟩
              rcases List.mem_cons.mp hs with rfl | hmem
              · exact absurd hsid hfi
              · rcases ih (seen ++ [item.id]) fid hfid (by
                  intro hcontra
                  rcases List.mem_append.mp hcontra with hcontra | hcontra
                  · exact hseen hcontra
                  · exact hfi (List.mem_singleton.mp hcontra).symm)
                  ⟨s, hmem, hsid⟩ hsome with ⟨t, ht, htid⟩
                exact ⟨t, List.mem_cons_of_mem _ ht, htid⟩

/-! ## Claim theorem: C5 -/

/-- C5: `dedup_skipped_by_id` yields exactly one record per (non-empty)
id — the output ids are duplicate-free and an id occurs in the output iff
it occurs in the input; for two colliding records where exactly one has
reason `personal/preference`, the personal record wins in either input
order; for any other collision the first-seen record is kept. -/
theorem C5_dedup_by_id_personal_wins :
    (∀ l : List SkipItem,
      ((dedup_skipped_by_id l).map (fun s => s.id)).Nodup ∧
      (∀ fid, fid ≠ "" →
        ((∃ s ∈ l, s.id = fid) ↔
          ∃ t ∈ dedup_skipped_by_id l, t.id = fid))) ∧
    (∀ i qa ra qb rb, i ≠ "" →
      rb = "personal/preference" → ra ≠ "personal/preference" →
      dedup_skipped_by_id [⟨i, qa, ra⟩, ⟨i, qb, rb⟩] = [⟨i, qb, rb⟩] ∧
      dedup_skipped_by_id [⟨i, qb, rb⟩, ⟨i, qa, ra⟩] = [⟨i, qb, rb⟩]) ∧
    (∀ i qa ra qb rb, i ≠ "" →
      ¬ (rb = "personal/preference" ∧ ra ≠ "personal/preference") →
      dedup_skipped_by_id [⟨i, qa, ra⟩, ⟨i, qb, rb⟩] = [⟨i, qa, ra⟩]) := by
  have hch : ∀ l : List SkipItem, ∀ k it,
      dlookup (dedup_skipped_pass1 l) k = some it → it.id = k :=
    fun l => pass1Aux_id_inv l [] (fun k it hk => by cases hk)
  refine ⟨?_, ?_, ?_⟩
  · intro l
    constructor
    · exact (pass2_nodup_and_not_seen _ (hch l) l []).1
    · intro fid hfid
      constructor
      · intro hex
        rcases hex with ⟨s, hs, hsid⟩
        have hsome : (dlookup (dedup_skipped_pass1 l) fid).isSome := by
          rw [← hsid]
          exact pass1Aux_isSome_of_mem l [] s hs (by rw [hsid]; exact hfid)
        exact pass2_covers _ (hch l) l [] fid hfid (List.not_mem_nil fid)
          ⟨s, hs, hsid⟩ hsome
      · intro hex
        rcases hex with ⟨t, ht, htid⟩
        rcases pass2_source _ (hch l) l [] t ht with ⟨s, hs, hsid⟩
        exact ⟨s, hs, by rw [hsid, htid]⟩
  · intro i qa ra qb rb hi hb ha
    subst hb
    constructor
    · simp [dedup_skipped_by_id, dedup_skipped_pass1,
        dedup_skipped_pass1Aux, dedup_skipped_pass2, dinsert, dlookup,
        hi, ha]
    · simp [dedup_skipped_by_id, dedup_skipped_pass1,
        dedup_skipped_pass1Aux, dedup_skipped_pass2, dinsert, dlookup,
        hi, ha]
  · intro i qa ra qb rb hi hno
    simp [dedup_skipped_by_id, dedup_skipped_pass1,
      dedup_skipped_pass1Aux, dedup_skipped_pass2, dinsert, dlookup,
      hi, hno]

theorem C5_dedup_by_id_personal_wins_witness :
    dedup_skipped_by_id
      [⟨"f1", "q", "no valid option chosen"⟩,
       ⟨"f1", "q", "personal/preference"⟩] =
      [⟨"f1", "q", "personal/preference"⟩] ∧
    dedup_skipped_by_id
      [⟨"f1", "q", "personal/preference"⟩,
       ⟨"f1", "q", "no valid option chosen"⟩] =
      [⟨"f1", "q", "personal/preference"⟩] :=
  C5_dedup_by_id_personal_wins.2.1 "f1" "q" "no valid option chosen" "q"
    "personal/preference" (by decide) rfl (by decide)

/-! ## Numeric option-matching lemmas (C6) -/

theorem PyFloat.le_refl (a : PyFloat) : a ≤ a := Int.le_refl _

theorem PyFloat.le_of_lt {a b : PyFloat} (h : a < b) : a ≤ b :=
  Int.le_of_lt h

theorem PyFloat.le_of_not_lt {a b : PyFloat} (h : ¬ a < b) : b ≤ a :=
  Int.not_lt.mp h

theorem PyFloat.den_pos_int (a : PyFloat) : (0 : Int) < a.den := by
  exact_mod_cast a.dpos

theorem PyFloat.lt_of_le_of_lt {a b c : PyFloat} (h1 : a ≤ b) (h2 : b < c) :
    a < c := by
  have ha := a.den_pos_int
  have hb := b.den_pos_int
  have hc := c.den_pos_int
  have h1' : a.num * b.den ≤ b.num * a.den := h1
  have h2' : b.num * c.den < c.num * b.den := h2
  show a.num * c.den < c.num * a.den
  have k1 : a.num * b.den * c.den ≤ b.num * a.den * c.den :=
    mul_le_mul_of_nonneg_right h1' hc.le
  have k2 : b.num * c.den * a.den < c.num * b.den * a.den :=
    mul_lt_mul_of_pos_right h2' ha
  have k3 : a.num * c.den * b.den < c.num * a.den * b.den := by nlinarith
  exact lt_of_mul_lt_mul_right k3 hb.le

theorem PyFloat.lt_of_lt_of_le {a b c : PyFloat} (h1 : a < b) (h2 : b ≤ c) :
    a < c := by
  have ha := a.den_pos_int
  have hb := b.den_pos_int
  have hc := c.den_pos_int
  have h1' : a.num * b.den < b.num * a.den := h1
  have h2' : b.num * c.den ≤ c.num * b.den := h2
  show a.num * c.den < c.num * a.den
  have k1 : a.num * b.den * c.den < b.num * a.den * c.den :=
    mul_lt_mul_of_pos_right h1' hc
  have k2 : b.num * c.den * a.den ≤ c.num * b.den * a.den :=
    mul_le_mul_of_nonneg_right h2' ha.le
  have k3 : a.num * c.den * b.den < c.num * a.den * b.den := by nlinarith
  exact lt_of_mul_lt_mul_right k3 hb.le

theorem selectMinAux_spec (rest : List (PyFloat × String)) :
    ∀ best : PyFloat × String,
      ∃ pre post, best :: rest = pre ++ selectMinAux best rest :: post ∧
        (∀ p ∈ pre, (selectMinAux best rest).1 < p.1) ∧
        (∀ p ∈ best :: rest, (selectMinAux best rest).1 ≤ p.1) := by
  induction rest with
  | nil =>
      intro best
      refine ⟨[], [], rfl, by simp, ?_⟩
      intro p hp
      rcases List.mem_singleton.mp hp with rfl
      exact PyFloat.le_refl _
  | cons q t ih =>
      intro best
      by_cases h : q.1 < best.1
      · have hr : selectMinAux best (q :: t) = selectMinAux q t := by
          rw [selectMinAux, if_pos h]
        rw [hr]
        rcases ih q with ⟨pre, post, heq, hpre, hmin⟩
        refine ⟨best :: pre, post, ?_, ?_, ?_⟩
        · rw [List.cons_append, ← heq]
        · intro p hp
          rcases List.mem_cons.mp hp with rfl | hp'
          · exact PyFloat.lt_of_le_of_lt (hmin q (List.mem_cons_self _ _)) h
          · exact hpre p hp'
        · intro p hp
          rcases List.mem_cons.mp hp with rfl | hp'
          · exact PyFloat.le_of_lt
              (PyFloat.lt_of_le_of_lt (hmin q (List.mem_cons_self _ _)) h)
          · exact hmin p hp'
      · have hr : selectMinAux best (q :: t) = selectMinAux best t := by
          rw [selectMinAux, if_neg h]
        rw [hr]
        rcases ih best with ⟨pre, post, heq, hpre, hmin⟩
        cases pre with
        | nil =>
            rw [List.nil_append] at heq
            have h12 := List.cons.inj heq
            have hbr : best = selectMinAux best t := h12.1
            have ht : t = post := h12.2
            refine ⟨[], q :: post, ?_, by simp, ?_⟩
            · rw [List.nil_append, ← hbr, ht]
            · intro p hp
              rcases List.mem_cons.mp hp with rfl | hp'
              · exact hmin _ (List.mem_cons_self _ _)
              · rcases List.mem_cons.mp hp' with rfl | hp''
                · rw [← hbr]
                  exact PyFloat.le_of_not_lt h
                · exact hmin p (List.mem_cons_of_mem _ hp'')
        | cons b' pre' =>
            rw [List.cons_append] at heq
            have h12 := List.cons.inj heq
            have hb' : b' = best := h12.1.symm
            have ht : t = pre' ++ selectMinAux best t :: post := h12.2
            have hlt : (selectMinAux best t).1 < best.1 := by
              have := hpre b' (List.mem_cons_self _ _)
              rw [hb'] at this
              exact this
            refine ⟨best :: q :: pre', post, ?_, ?_, ?_⟩
            · rw [List.cons_append, List.cons_append, ← ht]
            · intro p hp
              rcases List.mem_cons.mp hp with rfl | hp'
              · exact hlt
              · rcases List.mem_cons.mp hp' with rfl | hp''
                · exact PyFloat.lt_of_lt_of_le hlt (PyFloat.le_of_not_lt h)
                · exact hpre p (List.mem_cons_of_mem _ hp'')
            · intro p hp
              rcases List.mem_cons.mp hp with rfl | hp'
              · exact hmin _ (List.mem_cons_self _ _)
              · rcases List.mem_cons.mp hp' with rfl | hp''
                · exact PyFloat.le_of_lt
                    (PyFloat.lt_of_lt_of_le hlt (PyFloat.le_of_not_lt h))
                · exact hmin p (List.mem_cons_of_mem _ hp'')

theorem selectMinScored_spec (scored : List (PyFloat × String)) (v : String)
    (h : selectMinScored scored = some v) :
    ∃ d pre post, scored = pre ++ (d, v) :: post ∧
      (∀ p ∈ pre, d < p.1) ∧ (∀ p ∈ scored, d ≤ p.1) := by
  cases scored with
  | nil => cases h
  | cons p rest =>
      rw [selectMinScored] at h
      injection h with h2
      rcases selectMinAux_spec rest p with ⟨pre, post, heq, hpre, hmin⟩
      refine ⟨(selectMinAux p rest).1, pre, post, ?_, hpre, hmin⟩
      rw [← h2]
      simpa using heq

theorem noRangeContains_spec (m : PyFloat) (opts : List (String × String))
    (h : noRangeContains m opts = true) :
    ∀ vl ∈ opts, ∀ r, months_range_from_label vl.2 = some r →
      rangeContainsB m r = false := by
  intro vl hvl r hr
  have := List.all_eq_true.mp h vl hvl
  rw [hr] at this
  simpa using this

theorem numericLoop_no_contain (m : PyFloat)
    (opts : List (String × String)) :
    (∀ vl ∈ opts, ∀ r, months_range_from_label vl.2 = some r →
      rangeContainsB m r = false) →
    ∀ scored, numericLoop m opts scored =
      selectMinScored (scored ++ scoredList m opts) := by
  induction opts with
  | nil =>
      intro _ scored
      simp [numericLoop, scoredList]
  | cons vl rest ih =>
      intro h scored
      obtain ⟨v, l⟩ := vl
      rw [numericLoop]
      cases hr : months_range_from_label l with
      | none =>
          rw [ih (fun vl h' => h vl (List.mem_cons_of_mem _ h')) scored]
          have : scoredList m ((v, l) :: rest) = scoredList m rest := by
            simp [scoredList, hr]
          rw [this]
      | some r =>
          have hc : rangeContainsB m r = false :=
            h (v, l) (List.mem_cons_self _ _) r hr
          dsimp only
          rw [if_neg (by rw [hc]; exact Bool.false_ne_true)]
          rw [ih (fun vl h' => h vl (List.mem_cons_of_mem _ h'))
            (scored ++ [(rangeDist m r, v)])]
          have : scoredList m ((v, l) :: rest) =
              (rangeDist m r, v) :: scoredList m rest := by
            simp [scoredList, hr]
          rw [this, List.append_assoc]
          rfl

/-! ## Claim theorems: C6 -/

/-- C6 counterexample: with options "Less than 6 months" (range
0–5.999 months) and "Over 1 year" (range 12.001–∞) and input "7 months"
(which lies in neither range), the matcher selects "Over 1 year" even
though "Less than 6 months" has the strictly smaller boundary distance
(1.001 vs 5.001 months) — refuting the claim's "option with minimum
boundary distance is selected". -/
theorem C6_boundary_distance_counterexample :
    choose_from_user (fun _ _ => none) "7 months" wOpts2 =
      some "Over 1 year" ∧
    rangeContainsB (PyFloat.ofNat 7)
      ((months_range_from_label "Less than 6 months").getD
        (PyFloat.ofNat 0, none)) = false ∧
    rangeContainsB (PyFloat.ofNat 7)
      ((months_range_from_label "Over 1 year").getD
        (PyFloat.ofNat 0, none)) = false ∧
    spec_boundary_distance (PyFloat.ofNat 7)
        ((months_range_from_label "Less than 6 months").getD
          (PyFloat.ofNat 0, none)) <
      spec_boundary_distance (PyFloat.ofNat 7)
        ((months_range_from_label "Over 1 year").getD
          (PyFloat.ofNat 0, none)) := by
  refine ⟨by decide, by decide, by decide, by decide⟩

/-- C6 (amended): the three concrete selections hold ("8 months" →
"6 months to 1 year", "fresher" → the zero-bound option, "3 years" →
"Over 1 year"); and when no range contains the parsed number, the matcher
selects the earliest option minimizing the code's distance score — which
is the distance to the nearer bound for a bounded range but
`max(0, m - lo)` for an unbounded "over" range (zero whenever `m` is
below the bound), not the spec's boundary distance. -/
theorem C6_numeric_range_matching_amended :
    (∀ fz, choose_from_user fz "8 months" wOpts3 =
      some "6 months to 1 year") ∧
    (∀ fz, choose_from_user fz "fresher" wOpts3 =
      some "Less than 6 months") ∧
    (∀ fz, choose_from_user fz "3 years" wOpts3 = some "Over 1 year") ∧
    (∀ ans m opts, parse_months_free_text ans = some m →
      noRangeContains m opts = true →
      stepNumeric ans opts = selectMinScored (scoredList m opts) ∧
      ∀ v, stepNumeric ans opts = some v →
        ∃ d pre post, scoredList m opts = pre ++ (d, v) :: post ∧
          (∀ p ∈ pre, d < p.1) ∧ (∀ p ∈ scoredList m opts, d ≤ p.1)) := by
  refine ⟨?_, ?_, ?_, ?_⟩
  · intro fz
    have h1 : stepIndex "8 months" wOpts3 = none := by decide
    have h2 : stepYesNo "8 months" wOpts3 = none := by decide
    have h3 : stepNumeric "8 months" wOpts3 =
        some "6 months to 1 year" := by decide
    rw [choose_from_user, h1, h2, h3]
    rfl
  · intro fz
    have h1 : stepIndex "fresher" wOpts3 = none := by decide
    have h2 : stepYesNo "fresher" wOpts3 = none := by decide
    have h3 : stepNumeric "fresher" wOpts3 =
        some "Less than 6 months" := by decide
    rw [choose_from_user, h1, h2, h3]
    rfl
  · intro fz
    have h1 : stepIndex "3 years" wOpts3 = none := by decide
    have h2 : stepYesNo "3 years" wOpts3 = none := by decide
    have h3 : stepNumeric "3 years" wOpts3 = some "Over 1 year" := by decide
    rw [choose_from_user, h1, h2, h3]
    rfl
  intro ans m opts hm hnc
  have h1 : stepNumeric ans opts = selectMinScored (scoredList m opts) := by
    rw [stepNumeric, hm]
    dsimp only
    rw [numericLoop_no_contain m opts (noRangeContains_spec m opts hnc) []]
    rw [List.nil_append]
  refine ⟨h1, fun v hv => ?_⟩
  rw [h1] at hv
  exact selectMinScored_spec _ _ hv

theorem C6_numeric_range_matching_amended_witness :
    stepNumeric "7 months" wOpts2 =
      selectMinScored (scoredList (PyFloat.ofNat 7) wOpts2) ∧
    ∀ v, stepNumeric "7 months" wOpts2 = some v →
      ∃ d pre post,
        scoredList (PyFloat.ofNat 7) wOpts2 = pre ++ (d, v) :: post ∧
        (∀ p ∈ pre, d < p.1) ∧
        (∀ p ∈ scoredList (PyFloat.ofNat 7) wOpts2, d ≤ p.1) :=
  C6_numeric_range_matching_amended.2.2.2 "7 months" (PyFloat.ofNat 7)
    wOpts2 (by decide) (by decide)

/-! ## Claim theorems: C7 -/

/-- C7: when every stage before substring containment fails (typed index,
yes/no, numeric bucketing, fuzzy matching below its cutoff), the matcher
returns the unique option whose label contains the input as a
case-insensitive substring, and returns no match at all when two or more
labels contain it — it never guesses among ties. -/
theorem C7_substring_unique_or_none
    (fuzzy : String → List String → Option String) (ans : String)
    (options : List (String × String))
    (h1 : stepIndex ans options = none) (h2 : stepYesNo ans options = none)
    (h3 : stepNumeric ans options = none)
    (h4 : stepFuzzy fuzzy ans options = none) :
    (∀ v l, options.filter
        (fun vl => strIn (pyLower ans) (pyLower vl.2)) = [(v, l)] →
      choose_from_user fuzzy ans options = some v) ∧
    (2 ≤ (options.filter
        (fun vl => strIn (pyLower ans) (pyLower vl.2))).length →
      choose_from_user fuzzy ans options = none) := by
  have hc : choose_from_user fuzzy ans options =
      stepSubstring ans options := by
    rw [choose_from_user, h1, h2, h3, h4]
    rfl
  constructor
  · intro v l hf
    rw [hc]
    simp only [stepSubstring, hf]
    simp
  · intro hlen
    rw [hc]
    simp only [stepSubstring]
    have hne : ¬ ((options.filter
        (fun vl => strIn (pyLower ans) (pyLower vl.2))).map
          Prod.fst).length = 1 := by
      rw [List.length_map]
      omega
    rw [if_neg hne]

theorem C7_substring_unique_or_none_witness :
    choose_from_user (fun _ _ => none) "ber"
      [("Oct", "October"), ("Nov", "November")] = none :=
  (C7_substring_unique_or_none (fun _ _ => none) "ber"
    [("Oct", "October"), ("Nov", "November")] (by decide) (by decide)
    (by decide) rfl).2 (by decide)

/-! ## Claim theorems: C8 -/

/-- C8 counterexample: in the cited `form_field_answer.normalize_fields`
coercion chain there is no `file` row — the raw type string "file"
coerces to "unknown", not "file", refuting the claim as stated. -/
theorem C8_file_coerces_to_unknown_counterexample :
    (coerce_type_ffa "file" false).1 = "unknown" ∧
    (coerce_type_ffa "upload" false).1 = "unknown" ∧
    (coerce_type_ffa "resume_upload" false).1 = "unknown" ∧
    ¬ (coerce_type_ffa "file" false).1 = "file" := by decide

/-- C8 (amended): the `file` row exists only in
`a6_complete_skipped_fields.normalize_fields`, where "file", "upload" and
"resume_upload" (and "file_upload") coerce to "file" and only type
strings outside all the table's rows coerce to "unknown"; in
`form_field_answer.normalize_fields` (the cited code) those three raw
strings coerce to "unknown" instead. -/
theorem C8_coercion_table_amended :
    (∀ am, (coerce_type_a6 "file" am).1 = "file" ∧
      (coerce_type_a6 "upload" am).1 = "file" ∧
      (coerce_type_a6 "file_upload" am).1 = "file" ∧
      (coerce_type_a6 "resume_upload" am).1 = "file" ∧
      (coerce_type_ffa "file" am).1 = "unknown" ∧
      (coerce_type_ffa "upload" am).1 = "unknown" ∧
      (coerce_type_ffa "resume_upload" am).1 = "unknown") ∧
    (∀ t am, (coerce_type_a6 t am).1 = "unknown" → t ∉ specTableRows) := by
  constructor
  · intro am
    cases am <;> decide
  · intro t am h hmem
    unfold coerce_type_a6 at h
    simp only [specTableRows] at hmem
    split_ifs at h with hc1 hc2 hc3 hc4 hc5 hc6 hc7
    · exact absurd h (by simp)
    · exact absurd h (by simp)
    · exact absurd h (by simp)
    · exact absurd h (by simp)
    · exact absurd h (by simp)
    · exact absurd h (by simp)
    · simp only [List.mem_cons, List.not_mem_nil, or_false] at hmem
      rcases hmem with rfl | rfl | rfl | rfl | rfl | rfl | rfl | rfl |
        rfl | rfl | rfl | rfl | rfl | rfl | rfl | rfl | rfl <;>
        simp_all
    · simp only [List.mem_cons, List.not_mem_nil, or_false] at hmem
      rcases hmem with rfl | rfl | rfl | rfl | rfl | rfl | rfl | rfl |
        rfl | rfl | rfl | rfl | rfl | rfl | rfl | rfl | rfl <;>
        simp_all

theorem C8_coercion_table_amended_witness :
    "email" ∉ specTableRows :=
  C8_coercion_table_amended.2 "email" false (by decide)

/-! ## Claim theorems: C9 -/

/-- C9: filling a combobox types the value character-by-character with
the fixed 160 ms inter-keystroke delay, waits the fixed 600 ms settle
interval, and then clicks the first visible option whenever at least one
option node is visible — regardless of whether its text matches the typed
value — and presses Enter only when no option is visible. -/
theorem C9_combo_types_then_picks_first (value : String)
    (visible : List String) :
    (∀ o rest, visible = o :: rest →
      (open_combo_type_slow_pick_first value visible).getLast? =
        some (ComboAction.clickOption o) ∧
      ComboAction.pressEnter ∉
        open_combo_type_slow_pick_first value visible) ∧
    (visible = [] →
      (open_combo_type_slow_pick_first value visible).getLast? =
        some ComboAction.pressEnter ∧
      ∀ lab, ComboAction.clickOption lab ∉
        open_combo_type_slow_pick_first value visible) ∧
    (∀ c ∈ value.toList,
      ComboAction.typeChar c COMBO_TYPE_DELAY_MS ∈
        open_combo_type_slow_pick_first value visible) ∧
    ComboAction.sleepMs COMBO_POST_TYPE_WAIT_MS ∈
      open_combo_type_slow_pick_first value visible := by
  refine ⟨?_, ?_, ?_, ?_⟩
  · intro o rest hv
    subst hv
    constructor
    · have hsh : open_combo_type_slow_pick_first value (o :: rest) =
          ([ComboAction.clickCombo, ComboAction.sleepMs COMBO_OPEN_PAUSE_MS,
            ComboAction.clearInput]
            ++ value.toList.map
              (fun c => ComboAction.typeChar c COMBO_TYPE_DELAY_MS)
            ++ [ComboAction.sleepMs COMBO_POST_TYPE_WAIT_MS]) ++
          [ComboAction.clickOption o] := by
        simp [open_combo_type_slow_pick_first, combo_first_visible_option]
      rw [hsh, List.getLast?_concat]
    · simp [open_combo_type_slow_pick_first, combo_first_visible_option]
  · intro hv
    subst hv
    constructor
    · have hsh : open_combo_type_slow_pick_first value [] =
          ([ComboAction.clickCombo, ComboAction.sleepMs COMBO_OPEN_PAUSE_MS,
            ComboAction.clearInput]
            ++ value.toList.map
              (fun c => ComboAction.typeChar c COMBO_TYPE_DELAY_MS)
            ++ [ComboAction.sleepMs COMBO_POST_TYPE_WAIT_MS]) ++
          [ComboAction.pressEnter] := by
        simp [open_combo_type_slow_pick_first, combo_first_visible_option]
      rw [hsh, List.getLast?_concat]
    · intro lab
      simp [open_combo_type_slow_pick_first, combo_first_visible_option]
  · intro c hc
    exact List.mem_append_left _ (List.mem_append_left _
      (List.mem_append_right _ (List.mem_map_of_mem _ hc)))
  · exact List.mem_append_left _
      (List.mem_append_right _ (List.mem_cons_self _ _))

theorem C9_combo_types_then_picks_first_witness :
    (open_combo_type_slow_pick_first "Bangalore"
      ["Bangalore, India", "Bangalore Rural"]).getLast? =
      some (ComboAction.clickOption "Bangalore, India") ∧
    ComboAction.pressEnter ∉ open_combo_type_slow_pick_first "Bangalore"
      ["Bangalore, India", "Bangalore Rural"] :=
  (C9_combo_types_then_picks_first "Bangalore"
    ["Bangalore, India", "Bangalore Rural"]).1 "Bangalore, India"
    ["Bangalore Rural"] rfl

/-! ## Claim theorems: C3 -/

/-- C3 counterexample: a control with both a non-empty `aria-label` and a
visible bound `label[for]` gets the bound label's text, not the
`aria-label` — refuting the claimed aria-label-first precedence of the
`_label_js` cascade. -/
theorem C3_aria_label_first_counterexample :
    label_js wCtxAria = "Bound label" ∧
    ¬ label_js wCtxAria = "Aria label" := by decide

/-- C3 (amended): the `_label_js` cascade resolves, stopping at the first
hit: (1) a visible bound `label[for]`, (2) a visible wrapping label,
(3) non-empty `aria-labelledby` text, (4) `aria-label`, (5)
`placeholder`/`aria-placeholder`, (6) the fieldset legend, (7) a nearby
label/heading — in particular a control with both a non-empty
`aria-label` and a visible bound label gets the bound label's text. -/
theorem C3_label_precedence_amended (e : LabelCtx) :
    (∀ t, e.labelFor = some ⟨t, true⟩ → label_js e = pyStrip t) ∧
    ((∀ l, e.labelFor = some l → l.visible = false) →
      (∀ t, e.wrapLabel = some ⟨t, true⟩ → label_js e = pyStrip t) ∧
      ((∀ l, e.wrapLabel = some l → l.visible = false) →
        (∀ t, e.ariaLabelledby = some t → t ≠ "" → label_js e = t) ∧
        ((∀ t, e.ariaLabelledby = some t → t = "") →
          (∀ s, e.ariaLabel = some s → s ≠ "" → label_js e = pyStrip s) ∧
          ((∀ s, e.ariaLabel = some s → s = "") →
            (∀ s, (truthy e.placeholder).orElse
                (fun _ => truthy e.ariaPlaceholder) = some s →
              label_js e = pyStrip s) ∧
            ((truthy e.placeholder).orElse
                (fun _ => truthy e.ariaPlaceholder) = none →
              (∀ t, e.legend = some t → label_js e = pyStrip t) ∧
              (e.legend = none →
                label_js e = (e.nearby.map pyStrip).getD "")))))) := by
  have hs4 : (∀ s, e.ariaLabel = some s → s = "") →
      (truthy e.ariaLabel).map pyStrip = none := by
    intro h4
    cases hal : e.ariaLabel with
    | none => rfl
    | some s => simp [truthy, h4 s hal]
  have htruthy : ∀ s : String, s ≠ "" → truthy (some s) = some s := by
    intro s hne
    simp [truthy, hne]
  have hs3 : (∀ t, e.ariaLabelledby = some t → t = "") →
      (match e.ariaLabelledby with
        | some txt => if txt = "" then none else some txt
        | none => none) = (none : Option String) := by
    intro h3
    cases hll : e.ariaLabelledby with
    | none => rfl
    | some txt => simp [h3 txt hll]
  have hs1 : (∀ l, e.labelFor = some l → l.visible = false) →
      (match e.labelFor with
        | some l => if l.visible then some (pyStrip l.text) else none
        | none => none) = (none : Option String) := by
    intro h1
    cases hlf : e.labelFor with
    | none => rfl
    | some l => simp [h1 l hlf]
  have hs2 : (∀ l, e.wrapLabel = some l → l.visible = false) →
      (match e.wrapLabel with
        | some l => if l.visible then some (pyStrip l.text) else none
        | none => none) = (none : Option String) := by
    intro h2
    cases hwl : e.wrapLabel with
    | none => rfl
    | some l => simp [h2 l hwl]
  refine ⟨?_, ?_⟩
  · intro t ht
    simp [label_js, ht]
  · intro h1
    refine ⟨?_, ?_⟩
    · intro t ht
      simp [label_js, hs1 h1, ht]
    · intro h2
      refine ⟨?_, ?_⟩
      · intro t ht hne
        simp [label_js, hs1 h1, hs2 h2, ht, hne]
      · intro h3
        refine ⟨?_, ?_⟩
        · intro s hs hne
          simp [label_js, hs1 h1, hs2 h2, hs3 h3, hs, htruthy s hne]
        · intro h4
          refine ⟨?_, ?_⟩
          · intro s hs
            simp [label_js, hs1 h1, hs2 h2, hs3 h3, hs4 h4, hs]
          · intro h5
            refine ⟨?_, ?_⟩
            · intro t ht
              simp [label_js, hs1 h1, hs2 h2, hs3 h3, hs4 h4, h5, ht]
            · intro h6
              simp [label_js, hs1 h1, hs2 h2, hs3 h3, hs4 h4, h5, h6]

theorem C3_label_precedence_amended_witness :
    label_js wCtxAria = pyStrip "Bound label" :=
  (C3_label_precedence_amended wCtxAria).1 "Bound label" rfl

end JobAutofill
